import Mathlib

set_option maxHeartbeats 1000000

/-!
A shallow embedding of `src/MicrosoftDemangle.cpp` (a small MSVC symbol
demangler) together with theorems about its parser and printer.

The C++ `Demangler` object carries four pieces of mutable state that the
parser functions touch: the remaining `input`, the `error` string (empty
means "no error"), the back-reference table `repeated_names`, and the bump
index `type_index` of the inline `Type` pool (`alloc()` is
`return type_buffer + type_index++;`).  `PState` models exactly these.
`Type` values are built functionally: the C++ code writes each node's
fields exactly once through pointers obtained from `alloc()`, so passing
nodes by value is observationally the same; the pool index is kept so that
allocation counts can be reasoned about.

Recursive parser functions take a fuel argument and return `none` when the
fuel runs out; a run that returns `none` for every fuel corresponds to a
non-terminating C++ execution.
-/

/-- Character codes used by the source: '0' = 48, '9' = 57, '@' = 64,
'A' = 65, 'P' = 80, '?' = 63. -/
structure PState where
  input : List Char
  error : Option String
  names : List (List Char)
  allocs : Nat
deriving DecidableEq

/-- `alloc()`: hand out the next pool slot (`type_index++`). -/
def PState.bump (s : PState) : PState := { s with allocs := s.allocs + 1 }

/-- `consume(s)`: if the input starts with `p`, drop it and return the
advanced state, otherwise `none` and the input is untouched. -/
def consumeS (p : List Char) (s : PState) : Option PState :=
  if List.isPrefixOf p s.input then some { s with input := s.input.drop p.length } else none

/-- A `consume` whose boolean result is ignored (e.g. `consume("E")`). -/
def tryConsume (p : List Char) (s : PState) : PState := (consumeS p s).getD s

/-- 32-bit signed wrap-around, for the `int32_t` accumulator of
`read_number`. -/
def wrap32 (x : Int) : Int := (x + 2147483648) % 4294967296 - 2147483648

/-- `neg ? -ret : ret` on the `int32_t` result. -/
def condNeg (neg : Bool) (v : Int) : Int := if neg then wrap32 (-v) else v

/-- The hex scan of `read_number`: consume digits 'A'..'P' (values 0..15)
into the accumulator until a terminating '@'; any other byte (or the end of
input) aborts the scan. -/
def readNumLoop : List Char → Int → Option (Int × List Char)
  | [], _ => none
  | c :: rest, acc =>
    if c = '@' then some (acc, rest)
    else if 65 ≤ c.toNat ∧ c.toNat ≤ 80 then
      readNumLoop rest (wrap32 (16 * acc + ((c.toNat : Int) - 65)))
    else none

/-- The hex tail of `read_number`: on a successful scan trim past the '@',
otherwise set `error = "bad number"` (the input is left untouched) and
return 0. -/
def numTail (neg : Bool) (s : PState) : Int × PState :=
  match readNumLoop s.input 0 with
  | some (v, rest) => (condNeg neg v, { s with input := rest })
  | none => (0, { s with error := some ("bad number") })

/-- `Demangler::read_number`: an optional leading '?' negates; a single
decimal digit d encodes d+1; otherwise hex digits 'A'..'P' terminated by
'@'. -/
def readNumber (s : PState) : Int × PState :=
  let p := match consumeS ['?'] s with
    | some s' => (true, s')
    | none => (false, s)
  match p.2.input with
  | c :: rest =>
    if 48 ≤ c.toNat ∧ c.toNat ≤ 57 then
      (condNeg p.1 ((c.toNat : Int) - 48 + 1), { p.2 with input := rest })
    else numTail p.1 p.2
  | [] => numTail p.1 p.2

/-- Scan for the next '@'; `acc` holds the consumed characters in reverse. -/
def readStringGo : List Char → List Char → Option (List Char × List Char)
  | [], _ => none
  | c :: rest, acc =>
    if c = '@' then some (acc.reverse, rest) else readStringGo rest (c :: acc)

/-- `Demangler::read_string`: read up to the next '@' and trim past it; if
there is no '@', set the error and leave the input untouched, returning the
empty string. -/
def readString (s : PState) : List Char × PState :=
  match readStringGo s.input [] with
  | some (str, rest) => (str, { s with input := rest })
  | none => ([], { s with error := some ("read_string: missing '@': " ++ String.mk s.input) })

/-- Record an identifier into `repeated_names` iff fewer than 10 entries are
stored. -/
def recordName (str : List Char) (s : PState) : PState :=
  if s.names.length < 10 then { s with names := s.names ++ [str] } else s

/-- The loop of `Demangler::read_name`: `while (!consume("@"))` read either a
digit back-reference or an identifier; `acc` is the vector `v`.  The C++
loop does not check the error slot, so a failing `read_string` (which
consumes nothing) loops forever; the fuel models that. -/
def readNameGo : Nat → PState → List (List Char) → Option (List (List Char) × PState)
  | 0, _, _ => none
  | f + 1, s, acc =>
    match s.input with
    | c :: rest =>
      if c = '@' then some (acc, { s with input := rest })
      else if 48 ≤ c.toNat ∧ c.toNat ≤ 57 then
        (if h : c.toNat - 48 < s.names.length then
          readNameGo f { s with input := rest } (acc ++ [s.names.get ⟨c.toNat - 48, h⟩])
        else
          some ([], { s with error := some ("name reference too large: " ++ String.mk s.input) }))
      else
        let r := readString s
        readNameGo f (recordName r.1 r.2) (acc ++ [r.1])
    | [] =>
      let r := readString s
      readNameGo f (recordName r.1 r.2) (acc ++ [r.1])

/-- `Demangler::read_name`. -/
def readName (f : Nat) (s : PState) : Option (List (List Char) × PState) :=
  readNameGo f s []

-- Storage classes (bit masks).
def SCConst : Nat := 1
def SCVolatile : Nat := 2
def SCFar : Nat := 4

-- Function classes (bit masks).
def FCPublic : Nat := 1
def FCProtected : Nat := 2
def FCPrivate : Nat := 4
def FCGlobal : Nat := 8
def FCStatic : Nat := 16
def FCVirtual : Nat := 32
def FCFFar : Nat := 64

inductive CallingConv where
  | Cdecl | Pascal | Thiscall | Stdcall | Fastcall | Regcall
deriving DecidableEq

inductive PrimTy where
  | Unknown | None | Function | Ptr | Ref | Array
  | Struct | Union | Class | Enum
  | Void | Bool | Char | Schar | Uchar | Short | Ushort | Int | Uint
  | Long | Ulong | Llong | Ullong | Wchar | Float | Double | Ldouble
deriving DecidableEq

/-- The `Type` node: `prim`, `sclass`, `calling_conv`, `func_class`, `len`,
`name`, the child pointer `ptr`, and `params`. -/
inductive Ty where
  | node (prim : PrimTy) (sclass : Nat) (cc : CallingConv) (fclass : Nat)
      (len : Int) (name : List (List Char)) (ptr : Option Ty) (params : List Ty)

def Ty.prim : Ty → PrimTy
  | .node p _ _ _ _ _ _ _ => p

def Ty.sclass : Ty → Nat
  | .node _ x _ _ _ _ _ _ => x

def Ty.name : Ty → List (List Char)
  | .node _ _ _ _ _ n _ _ => n

def Ty.params : Ty → List Ty
  | .node _ _ _ _ _ _ _ q => q

def Ty.setPrim : Ty → PrimTy → Ty
  | .node _ b c d e n p q, a => .node a b c d e n p q

def Ty.setSclass : Ty → Nat → Ty
  | .node a _ c d e n p q, b => .node a b c d e n p q

def Ty.setCC : Ty → CallingConv → Ty
  | .node a b _ d e n p q, c => .node a b c d e n p q

def Ty.setFclass : Ty → Nat → Ty
  | .node a b c _ e n p q, d => .node a b c d e n p q

def Ty.setLen : Ty → Int → Ty
  | .node a b c d _ n p q, e => .node a b c d e n p q

def Ty.setName : Ty → List (List Char) → Ty
  | .node a b c d e _ p q, n => .node a b c d e n p q

def Ty.setPtr : Ty → Ty → Ty
  | .node a b c d e n _ q, p => .node a b c d e n (some p) q

def Ty.setParams : Ty → List Ty → Ty
  | .node a b c d e n p _, q => .node a b c d e n p q

/-- A default-constructed pool node: `sclass = 0`, null `ptr`, empty
vectors (`prim` is indeterminate in C++ but is always assigned before being
read; `Unknown` stands in for it). -/
def defaultTy : Ty := .node .Unknown 0 .Cdecl 0 0 [] none []

/-- The `switch` table of `Demangler::read_func_class`; `none` is the
`default` case. -/
def funcClassOf (c : Char) : Option Nat :=
  if c = 'A' then some FCPrivate
  else if c = 'B' then some (FCPrivate ||| FCFFar)
  else if c = 'C' then some (FCPrivate ||| FCStatic)
  else if c = 'D' then some (FCPrivate ||| FCStatic)
  else if c = 'E' then some (FCPrivate ||| FCVirtual)
  else if c = 'F' then some (FCPrivate ||| FCVirtual)
  else if c = 'I' then some FCProtected
  else if c = 'J' then some (FCProtected ||| FCFFar)
  else if c = 'K' then some (FCProtected ||| FCStatic)
  else if c = 'L' then some (FCProtected ||| FCStatic ||| FCFFar)
  else if c = 'M' then some (FCProtected ||| FCVirtual)
  else if c = 'N' then some (FCProtected ||| FCVirtual ||| FCFFar)
  else if c = 'Q' then some FCPublic
  else if c = 'R' then some (FCPublic ||| FCFFar)
  else if c = 'S' then some (FCPublic ||| FCStatic)
  else if c = 'T' then some (FCPublic ||| FCStatic ||| FCFFar)
  else if c = 'U' then some (FCPublic ||| FCVirtual)
  else if c = 'V' then some (FCPublic ||| FCVirtual ||| FCFFar)
  else if c = 'Y' then some FCGlobal
  else if c = 'Z' then some (FCGlobal ||| FCFFar)
  else none

/-- `Demangler::read_func_class`: one-byte table; unknown bytes are pushed
back and fail. -/
def readFuncClass (s : PState) : Nat × PState :=
  match s.input with
  | c :: rest =>
    (match funcClassOf c with
     | some v => (v, { s with input := rest })
     | none => (0, { s with error := some ("unknown func class: " ++ String.mk s.input) }))
  | [] => (0, { s with error := some ("unknown func class: " ++ String.mk s.input) })

/-- The `switch` table of `Demangler::read_calling_conv`. -/
def ccOf (c : Char) : Option CallingConv :=
  if c = 'A' then some .Cdecl
  else if c = 'C' then some .Pascal
  else if c = 'E' then some .Thiscall
  else if c = 'G' then some .Stdcall
  else if c = 'I' then some .Fastcall
  else none

/-- `Demangler::read_calling_conv`: A/C/E/G/I; unknown bytes are pushed back
and fail (returning `Cdecl`). -/
def readCallingConv (s : PState) : CallingConv × PState :=
  match s.input with
  | c :: rest =>
    (match ccOf c with
     | some v => (v, { s with input := rest })
     | none =>
       (.Cdecl, { s with error := some ("unknown calling convention: " ++ String.mk s.input) }))
  | [] => (.Cdecl, { s with error := some ("unknown calling convention: " ++ String.mk s.input) })

/-- The `switch` table of `Demangler::read_storage_class`. -/
def storageClassOf (c : Char) : Option Nat :=
  if c = 'A' then some 0
  else if c = 'B' then some SCConst
  else if c = 'C' then some SCVolatile
  else if c = 'D' then some (SCConst ||| SCVolatile)
  else if c = 'E' then some SCFar
  else if c = 'F' then some (SCConst ||| SCFar)
  else if c = 'G' then some (SCVolatile ||| SCFar)
  else if c = 'H' then some (SCConst ||| SCVolatile ||| SCFar)
  else none

/-- `Demangler::read_storage_class`: A..H; unknown bytes are pushed back and
yield 0 with no error. -/
def readStorageClass (s : PState) : Nat × PState :=
  match s.input with
  | c :: rest =>
    (match storageClassOf c with
     | some v => (v, { s with input := rest })
     | none => (0, s))
  | [] => (0, s)

/-- `Demangler::read_storage_class_for_return`: `?A`/`?B`/`?C`/`?D`, or
nothing. -/
def readSCForReturn (s : PState) : Nat × PState :=
  match consumeS ['?', 'A'] s with
  | some s' => (0, s')
  | none =>
    match consumeS ['?', 'B'] s with
    | some s' => (SCConst, s')
    | none =>
      match consumeS ['?', 'C'] s with
      | some s' => (SCVolatile, s')
      | none =>
        match consumeS ['?', 'D'] s with
        | some s' => (SCConst ||| SCVolatile, s')
        | none => (0, s)

/-- The single-byte `switch` table of `Demangler::read_prim_type`. -/
def primTyOf (c : Char) : Option PrimTy :=
  if c = 'X' then some .Void
  else if c = 'D' then some .Char
  else if c = 'C' then some .Schar
  else if c = 'E' then some .Uchar
  else if c = 'F' then some .Short
  else if c = 'G' then some .Ushort
  else if c = 'H' then some .Int
  else if c = 'I' then some .Uint
  else if c = 'J' then some .Long
  else if c = 'K' then some .Ulong
  else if c = 'M' then some .Float
  else if c = 'N' then some .Double
  else if c = 'O' then some .Ldouble
  else none

/-- The `default` case of `read_prim_type`: the unknown byte was pushed
back; try the two-byte `_`-coded types on the full input, else fail. -/
def primTail (s : PState) : PrimTy × PState :=
  match consumeS ['_', 'N'] s with
  | some s' => (.Bool, s')
  | none =>
    match consumeS ['_', 'J'] s with
    | some s' => (.Llong, s')
    | none =>
      match consumeS ['_', 'K'] s with
      | some s' => (.Ullong, s')
      | none =>
        match consumeS ['_', 'W'] s with
        | some s' => (.Wchar, s')
        | none =>
          (.Unknown, { s with error := some ("unknown primitive type: " ++ String.mk s.input) })

/-- `Demangler::read_prim_type`: one-byte codes, then the two-byte `_`-coded
ones; anything else is pushed back and fails with `Unknown`. -/
def readPrimType (s : PState) : PrimTy × PState :=
  match s.input with
  | c :: rest =>
    (match primTyOf c with
     | some t => (t, { s with input := rest })
     | none => primTail s)
  | [] => primTail s

/-- The dimension loop of the array branch of `read_var_type`: `dimension`
times, `tp->len = read_number(); tp->ptr = alloc();` (the loop does not
check the error slot).  Returns the list of lengths. -/
def readDims : Nat → PState → List Int × PState
  | 0, s => ([], s)
  | d + 1, s =>
    let r1 := readNumber s
    let r2 := readDims d r1.2.bump
    (r1.1 :: r2.1, r2.2)

/-- The optional `$$C` qualifier block: `B` → Const, `C`/`D` →
Const|Volatile, `A` → leave the storage class alone, anything else fails
(note the "unkonwn" typo is the source's). `some sc` means "overwrite the
outer node's sclass with sc". -/
def dollarC (s : PState) : Option Nat × PState :=
  match consumeS ['$', '$', 'C'] s with
  | none => (none, s)
  | some s1 =>
    match consumeS ['B'] s1 with
    | some s' => (some SCConst, s')
    | none =>
      match consumeS ['C'] s1 with
      | some s' => (some (SCConst ||| SCVolatile), s')
      | none =>
        match consumeS ['D'] s1 with
        | some s' => (some (SCConst ||| SCVolatile), s')
        | none =>
          match consumeS ['A'] s1 with
          | some s' => (none, s')
          | none => (none, { s1 with error := some ("unkonwn storage class: " ++ String.mk s1.input) })

/-- Build the `Array` chain of the `Y` branch: the first length lands on the
incoming node (whose other fields, e.g. a preset `sclass`, are kept), each
further length on a fresh pool node, and `elem` is what `read_var_type`
wrote into the innermost alloc'd slot. -/
def mkChain (ty : Ty) (lens : List Int) (elem : Ty) : Ty :=
  match lens with
  | [] => elem
  | l :: rest => ((ty.setPrim .Array).setLen l).setPtr (mkChainRest rest elem)
where
  mkChainRest : List Int → Ty → Ty
    | [], elem => elem
    | l :: rest, elem => ((defaultTy.setPrim .Array).setLen l).setPtr (mkChainRest rest elem)

mutual

/-- `Demangler::read_var_type`: dispatch on the leading tag. -/
def readVarType : Nat → Ty → PState → Option (Ty × PState)
  | 0, _, _ => none
  | f + 1, ty, s =>
    match consumeS ['T'] s with
    | some s' => readClassFn f .Union ty s'
    | none =>
    match consumeS ['U'] s with
    | some s' => readClassFn f .Struct ty s'
    | none =>
    match consumeS ['V'] s with
    | some s' => readClassFn f .Class ty s'
    | none =>
    match consumeS ['W', '4'] s with
    | some s' =>
      (match readNameGo f s' [] with
       | none => none
       | some (nm, s1) => some ((ty.setPrim .Enum).setName nm, s1))
    | none =>
    match consumeS ['P', '6', 'A'] s with
    | some s' =>
      -- ty.prim = Ptr; ty.ptr = alloc(); fn.prim = Function; fn.ptr = alloc();
      (match readVarType f defaultTy s'.bump.bump with
       | none => none
       | some (retTy, s1) =>
         match p6aLoop f [] s1 with
         | none => none
         | some (ps, s2) =>
           some ((ty.setPrim .Ptr).setPtr
             (((defaultTy.setPrim .Function).setPtr retTy).setParams ps), s2))
    | none =>
    match consumeS ['A'] s with
    | some s' =>
      (let s1 := (tryConsume ['E'] s').bump
       let r := readStorageClass s1
       match readVarType f (defaultTy.setSclass r.1) r.2 with
       | none => none
       | some (pt, s2) => some ((ty.setPrim .Ref).setPtr pt, s2))
    | none =>
    match consumeS ['P'] s with
    | some s' =>
      (let s1 := (tryConsume ['E'] s').bump
       let r := readStorageClass s1
       match readVarType f (defaultTy.setSclass r.1) r.2 with
       | none => none
       | some (pt, s2) => some ((ty.setPrim .Ptr).setPtr pt, s2))
    | none =>
    match consumeS ['Q'] s with
    | some s' =>
      (let s1 := (tryConsume ['E'] s').bump
       let r := readStorageClass s1
       match readVarType f (defaultTy.setSclass r.1) r.2 with
       | none => none
       | some (pt, s2) => some (((ty.setPrim .Ptr).setSclass SCConst).setPtr pt, s2))
    | none =>
    match consumeS ['Y'] s with
    | some s' =>
      (let r := readNumber s'
       if r.1 ≤ 0 then
         some (ty, { r.2 with error := some ("invalid array dimension: " ++ toString r.1) })
       else
         let rd := readDims r.1.toNat r.2
         let rc := dollarC rd.2
         match readVarType f defaultTy rc.2 with
         | none => none
         | some (elem, s2) =>
           let outer := mkChain ty rd.1 elem
           some ((match rc.1 with
                  | some sc => outer.setSclass sc
                  | none => outer), s2))
    | none =>
      let r := readPrimType s
      some (ty.setPrim r.1, r.2)

/-- `Demangler::read_class`: set `prim`; on `?$` read the template name and
then type parameters until `@`, else read a plain name path. -/
def readClassFn : Nat → PrimTy → Ty → PState → Option (Ty × PState)
  | 0, _, _, _ => none
  | f + 1, prim, ty, s =>
    let ty1 := ty.setPrim prim
    match consumeS ['?', '$'] s with
    | some s' =>
      let r := readString s'
      let ty2 := ty1.setName (ty1.name ++ [r.1])
      (match classParamsLoop f [] r.2 with
       | none => none
       | some (ps, s1) => some (ty2.setParams (ty2.params ++ ps), s1))
    | none =>
      match readNameGo f s [] with
      | none => none
      | some (nm, s1) => some (ty1.setName nm, s1)

/-- The template-parameter loop of `read_class`:
`while (error.empty() && !consume("@"))`. -/
def classParamsLoop : Nat → List Ty → PState → Option (List Ty × PState)
  | 0, _, _ => none
  | f + 1, ps, s =>
    if s.error ≠ none then some (ps, s)
    else
      match consumeS ['@'] s with
      | some s' => some (ps, s')
      | none =>
        match readVarType f defaultTy s.bump with
        | none => none
        | some (tp, s1) => classParamsLoop f (ps ++ [tp]) s1

/-- The parameter loop of the `P6A` (pointer-to-function) branch:
`while (error.empty() && !consume("@Z") && !consume("Z"))`. -/
def p6aLoop : Nat → List Ty → PState → Option (List Ty × PState)
  | 0, _, _ => none
  | f + 1, ps, s =>
    if s.error ≠ none then some (ps, s)
    else
      match consumeS ['@', 'Z'] s with
      | some s' => some (ps, s')
      | none =>
        match consumeS ['Z'] s with
        | some s' => some (ps, s')
        | none =>
          match readVarType f defaultTy s.bump with
          | none => none
          | some (tp, s1) => p6aLoop f (ps ++ [tp]) s1

end

/-- `Demangler::read_func_return_type`: `@` means "structor" (`None`),
otherwise a variable type followed by an expected `@` whose absence is
ignored. -/
def readFuncReturnType (f : Nat) (ty : Ty) (s : PState) : Option (Ty × PState) :=
  match consumeS ['@'] s with
  | some s' => some (ty.setPrim .None, s')
  | none =>
    match readVarType f ty s with
    | none => none
    | some (ty1, s1) => some (ty1, tryConsume ['@'] s1)

/-- The free-function parameter loop of `parse`:
`while (error.empty() && !input.empty() && !input.startswith('@'))`. -/
def parseParamsAt : Nat → List Ty → PState → Option (List Ty × PState)
  | 0, _, _ => none
  | f + 1, ps, s =>
    if s.error = none ∧ s.input ≠ [] ∧ s.input.head? ≠ some '@' then
      match readVarType f defaultTy s.bump with
      | none => none
      | some (tp, s1) => parseParamsAt f (ps ++ [tp]) s1
    else some (ps, s)

/-- The member-function parameter loop of `parse`:
`while (error.empty() && !input.empty() && !input.startswith('Z'))`. -/
def parseParamsZ : Nat → List Ty → PState → Option (List Ty × PState)
  | 0, _, _ => none
  | f + 1, ps, s =>
    if s.error = none ∧ s.input ≠ [] ∧ s.input.head? ≠ some 'Z' then
      match readVarType f defaultTy s.bump with
      | none => none
      | some (tp, s1) => parseParamsZ f (ps ++ [tp]) s1
    else some (ps, s)

/-- The body of `Demangler::parse` from `symbol = read_name()` on: classify
the symbol as variable (`3`), non-member function (`Y`) or member function,
and read its type. -/
def parseTail (f : Nat) (s1 : PState) : Option (List (List Char) × Ty × PState) :=
  match readNameGo f s1 [] with
  | none => none
  | some (sym, s2) =>
    match consumeS ['3'] s2 with
    | some s3 =>
      -- variable: read its type and return at once
      (match readVarType f defaultTy s3 with
       | none => none
       | some (ty, s4) => some (sym, ty, s4))
    | none =>
      match consumeS ['Y'] s2 with
      | some s3 =>
        -- non-member function
        (let rc := readCallingConv s3
         let s4 := rc.2.bump
         let rr := readSCForReturn s4
         match readVarType f (defaultTy.setSclass rr.1) rr.2 with
         | none => none
         | some (retTy, s5) =>
           match parseParamsAt f [] s5 with
           | none => none
           | some (ps, s6) =>
             some (sym,
               (((defaultTy.setPrim .Function).setCC rc.1).setPtr retTy).setParams ps, s6))
      | none =>
        -- member function
        let rf := readFuncClass s2
        let s3 := tryConsume ['E'] rf.2
        let rc := readCallingConv s3
        let s4 := rc.2.bump
        let rs := readStorageClass s4
        match readFuncReturnType f (defaultTy.setSclass rs.1) rs.2 with
        | none => none
        | some (retTy, s5) =>
          match parseParamsZ f [] s5 with
          | none => none
          | some (ps, s6) =>
            some (sym,
              ((((defaultTy.setPrim .Function).setFclass rf.1).setCC rc.1).setPtr
                retTy).setParams ps, s6)

/-- `Demangler::parse`, returning the main symbol name, the parsed type and
the final parser state.

If the input does not start with `?`, the source pushes the whole input into
`symbol` and sets `type.prim = Unknown`, but there is no early return: both
effects are dead, since `symbol` is unconditionally overwritten by
`read_name()` on the next line (and `Unknown` coincides with the default
here), and parsing continues on the same input. -/
def parse (f : Nat) (s0 : PState) : Option (List (List Char) × Ty × PState) :=
  parseTail f
    (match consumeS ['?'] s0 with
     | some s' => s'
     | none => s0)

/-- `Demangler::write_space`: emit one space iff the output so far ends in
an alphabetic character. -/
def writeSpace (os : List Char) : List Char :=
  match os.getLast? with
  | some c => if c.isAlpha then os ++ [' '] else os
  | none => os

/-- `Demangler::write_name`: `::`-joined fragments, outermost first (the
path is stored innermost-first); an innermost fragment starting `?0` / `?1`
is rendered as constructor `C::C` / destructor `C::~C`. -/
def writeName (name : List (List Char)) (os : List Char) : List Char :=
  match name with
  | [] => os
  | first :: outer =>
    let os1 := (outer.reverse).foldl (fun o frag => o ++ frag ++ [':', ':']) (writeSpace os)
    if List.isPrefixOf ['?', '0'] first then
      os1 ++ first.drop 2 ++ [':', ':'] ++ first.drop 2
    else if List.isPrefixOf ['?', '1'] first then
      os1 ++ first.drop 2 ++ [':', ':', '~'] ++ first.drop 2
    else os1 ++ first

mutual

/-- `Demangler::write_pre`: the "first half" of a declarator.  Note the
`Function` case returns early, skipping the trailing-const check. -/
def writePre : Nat → Ty → List Char → List Char
  | 0, _, os => os
  | f + 1, .node prim sclass _ _ _ nm ptr params, os =>
    match prim with
    | .Function =>
      (match ptr with
       | some c => writePre f c os
       | none => os)
    | _ =>
      let os1 :=
        match prim, ptr with
        | .Unknown, _ => os
        | .None, _ => os
        | .Ptr, some c =>
          let o := writePre f c os
          let o := if c.prim = .Function ∨ c.prim = .Array then o ++ ['('] else o
          o ++ ['*']
        | .Ptr, none => os ++ ['*']
        | .Ref, some c =>
          let o := writePre f c os
          let o := if c.prim = .Function ∨ c.prim = .Array then o ++ ['('] else o
          o ++ ['&']
        | .Ref, none => os ++ ['&']
        | .Array, some c => writePre f c os
        | .Array, none => os
        | .Struct, _ => writeClassFn f ("struct".data) nm params os
        | .Union, _ => writeClassFn f ("union".data) nm params os
        | .Class, _ => writeClassFn f ("class".data) nm params os
        | .Enum, _ => writeName nm (os ++ "enum ".data)
        | .Void, _ => os ++ "void".data
        | .Bool, _ => os ++ "bool".data
        | .Char, _ => os ++ "char".data
        | .Schar, _ => os ++ "signed char".data
        | .Uchar, _ => os ++ "unsigned char".data
        | .Short, _ => os ++ "short".data
        | .Ushort, _ => os ++ "unsigned short".data
        | .Int, _ => os ++ "int".data
        | .Uint, _ => os ++ "unsigned int".data
        | .Long, _ => os ++ "long".data
        | .Ulong, _ => os ++ "unsigned long".data
        | .Llong, _ => os ++ "long long".data
        | .Ullong, _ => os ++ "unsigned long long".data
        | .Wchar, _ => os ++ "wchar_t".data
        | .Float, _ => os ++ "float".data
        | .Double, _ => os ++ "double".data
        | .Ldouble, _ => os ++ "long double".data
        | .Function, _ => os
      if sclass &&& SCConst ≠ 0 then writeSpace os1 ++ "const".data else os1

/-- `Demangler::write_post`: the "second half" of a declarator. -/
def writePost : Nat → Ty → List Char → List Char
  | 0, _, os => os
  | f + 1, .node prim _ _ _ len _ ptr params, os =>
    match prim with
    | .Function => writeParamsGo f true params (os ++ ['(']) ++ [')']
    | .Ptr | .Ref =>
      (match ptr with
       | some c =>
         let o := if c.prim = .Function ∨ c.prim = .Array then os ++ [')'] else os
         writePost f c o
       | none => os)
    | .Array =>
      (let o := os ++ ['['] ++ (toString len).data ++ [']']
       match ptr with
       | some c => writePost f c o
       | none => o)
    | _ => os

/-- `Demangler::write_params`: comma-separated `write_pre; write_post`. -/
def writeParamsGo : Nat → Bool → List Ty → List Char → List Char
  | 0, _, _, os => os
  | _ + 1, _, [], os => os
  | f + 1, first, p :: rest, os =>
    let o := if first then os else os ++ [',']
    let o := writePost f p (writePre f p o)
    writeParamsGo f false rest o

/-- `Demangler::write_class`: `keyword Name` and, when template parameters
are present, `keyword Name<p0,p1,...>`. -/
def writeClassFn : Nat → List Char → List (List Char) → List Ty → List Char → List Char
  | 0, _, _, _, os => os
  | f + 1, kw, nm, params, os =>
    let o := writeName nm (os ++ kw ++ [' '])
    match params with
    | [] => o
    | _ => writeParamsGo f true params (o ++ ['<']) ++ ['>']

end

/-- `Demangler::str`: `write_pre(type); write_name(symbol); write_post(type)`. -/
def strFn (f : Nat) (sym : List (List Char)) (ty : Ty) : List Char :=
  writePost f ty (writeName sym (writePre f ty []))

/-- The initial parser state on a given input. -/
def mkState (inp : List Char) : PState := ⟨inp, none, [], 0⟩

/-- The entry point, as driven by `main`: parse, then return the error if
one is set, else the printed declaration.  `none` models a run that does
not terminate within the given fuel. -/
def demangle (f : Nat) (inp : List Char) : Option (Except String (List Char)) :=
  match parse f (mkState inp) with
  | none => none
  | some (sym, ty, s) =>
    match s.error with
    | some e => some (Except.error e)
    | none => some (Except.ok (strFn f sym ty))

/-- Base-16 value of a run of hex digits 'A'..'P' (the mathematical value,
folded most-significant first), starting from accumulator `a`. -/
def hexAcc (a : Int) (ds : List Char) : Int :=
  ds.foldl (fun x c => 16 * x + ((c.toNat : Int) - 65)) a

/-- Base-16 value of a run of hex digits 'A'..'P'. -/
def hexVal (ds : List Char) : Int := hexAcc 0 ds

/-- The bytes an error-free `read_var_type` can start consuming: the nine
dispatch tags, the one-byte primitive codes, and `_` (two-byte codes). -/
def vstart (c : Char) : Bool :=
  (['T', 'U', 'V', 'W', 'P', 'A', 'Q', 'Y',
    'X', 'D', 'C', 'E', 'F', 'G', 'H', 'I', 'J', 'K', 'M', 'N', 'O', '_'] : List Char).contains c

/-- The dispatch probes of `read_var_type` all fail on a byte that
`read_prim_type` accepts. -/
def primStart (c : Char) : Bool :=
  !((['T', 'U', 'V', 'W', 'P', 'A', 'Q', 'Y'] : List Char).contains c)

/-- The body tag of a mangled symbol: the first remaining byte after the
optional `?` and the `read_name()` call of `parse` ('3' marks a variable
symbol). -/
def bodyTag (f : Nat) (inp : List Char) : Option Char :=
  match readNameGo f
      (match consumeS ['?'] (mkState inp) with
       | some s' => s'
       | none => mkState inp) [] with
  | none => none
  | some (_, s2) => s2.input.head?

/-- How one parser step may change the shared state: an error, once set, is
never cleared (though it may be overwritten); the back-reference table only
grows by appending; and its length never exceeds `max` of its old length
and 10 (so a table of at most 10 entries stays at most 10). -/
def Evol (s s' : PState) : Prop :=
  (s.error.isSome = true → s'.error.isSome = true)
  ∧ (∃ t, s'.names = s.names ++ t)
  ∧ s'.names.length ≤ max s.names.length 10

/-- Consumed-prefix extension property of `read_var_type` at fuel `f`: an
error-free run consumes a non-empty prefix `C` of the input starting with a
`vstart` byte, and replays identically when anything is appended after `C`. -/
def ExtV (f : Nat) : Prop :=
  ∀ ty s v s', readVarType f ty s = some (v, s') → s.error = none → s'.error = none →
    ∃ C, C ≠ [] ∧ vstart (C.headD ' ') = true ∧ s.input = C ++ s'.input ∧
      ∀ Y, readVarType f ty ⟨C ++ Y, none, s.names, s.allocs⟩
          = some (v, ⟨Y, none, s'.names, s'.allocs⟩)

/-- Consumed-prefix extension property of `read_class` at fuel `f`. -/
def ExtC (f : Nat) : Prop :=
  ∀ p ty s v s', readClassFn f p ty s = some (v, s') → s.error = none → s'.error = none →
    ∃ C, s.input = C ++ s'.input ∧
      ∀ Y, readClassFn f p ty ⟨C ++ Y, none, s.names, s.allocs⟩
          = some (v, ⟨Y, none, s'.names, s'.allocs⟩)

/-- Consumed-prefix extension property of the template-parameter loop of
`read_class` at fuel `f`. -/
def ExtL (f : Nat) : Prop :=
  ∀ ps s v s', classParamsLoop f ps s = some (v, s') → s.error = none → s'.error = none →
    ∃ C, s.input = C ++ s'.input ∧
      ∀ Y, classParamsLoop f ps ⟨C ++ Y, none, s.names, s.allocs⟩
          = some (v, ⟨Y, none, s'.names, s'.allocs⟩)

/-- Consumed-prefix extension property of the parameter loop of the `P6A`
branch at fuel `f`. -/
def ExtP (f : Nat) : Prop :=
  ∀ ps s v s', p6aLoop f ps s = some (v, s') → s.error = none → s'.error = none →
    ∃ C, s.input = C ++ s'.input ∧
      ∀ Y, p6aLoop f ps ⟨C ++ Y, none, s.names, s.allocs⟩
          = some (v, ⟨Y, none, s'.names, s'.allocs⟩)

/-! ## Lemmas -/

theorem evol_refl (s : PState) : Evol s s :=
  ⟨fun h => h, ⟨[], by simp⟩, le_max_left _ _⟩

theorem evol_trans {a b c : PState} (h1 : Evol a b) (h2 : Evol b c) : Evol a c := by
  obtain ⟨e1, ⟨t1, n1⟩, l1⟩ := h1
  obtain ⟨e2, ⟨t2, n2⟩, l2⟩ := h2
  refine ⟨fun h => e2 (e1 h), ⟨t1 ++ t2, by rw [n2, n1, List.append_assoc]⟩, ?_⟩
  omega

theorem evol_of (s s' : PState) (hn : s'.names = s.names)
    (he : s.error.isSome = true → s'.error.isSome = true) : Evol s s' :=
  ⟨he, ⟨[], by simp [hn]⟩, by rw [hn]; exact le_max_left _ _⟩

theorem evol_consumeS {p : List Char} {s s' : PState} (h : consumeS p s = some s') :
    Evol s s' := by
  unfold consumeS at h
  split at h
  · cases h; exact evol_of _ _ rfl (fun x => x)
  · cases h

theorem evol_tryConsume (p : List Char) (s : PState) : Evol s (tryConsume p s) := by
  unfold tryConsume
  cases h : consumeS p s with
  | none => exact evol_refl s
  | some s' => exact evol_consumeS h

theorem evol_bump (s : PState) : Evol s s.bump :=
  evol_of _ _ rfl (fun x => x)

theorem evol_readString (s : PState) : Evol s (readString s).2 := by
  unfold readString
  split
  · exact evol_of _ _ rfl (fun x => x)
  · exact evol_of _ _ rfl (fun _ => rfl)

theorem evol_recordName (str : List Char) (s : PState) : Evol s (recordName str s) := by
  unfold recordName
  split
  · next h => exact ⟨fun x => x, ⟨[str], rfl⟩, by simp; omega⟩
  · exact evol_refl s

theorem evol_numTail (n : Bool) (s : PState) : Evol s (numTail n s).2 := by
  unfold numTail
  split
  · exact evol_of _ _ rfl (fun x => x)
  · exact evol_of _ _ rfl (fun _ => rfl)

theorem evol_readNumber (s : PState) : Evol s (readNumber s).2 := by
  simp only [readNumber]
  cases h : consumeS ['?'] s with
  | none =>
    simp only [h]
    split
    · split
      · exact evol_of _ _ rfl (fun x => x)
      · exact evol_numTail _ _
    · exact evol_numTail _ _
  | some s1 =>
    simp only [h]
    have h1 := evol_consumeS h
    split
    · split
      · exact evol_trans h1 (evol_of _ _ rfl (fun x => x))
      · exact evol_trans h1 (evol_numTail _ _)
    · exact evol_trans h1 (evol_numTail _ _)

theorem evol_readFuncClass (s : PState) : Evol s (readFuncClass s).2 := by
  simp only [readFuncClass]
  repeat' split
  all_goals first
    | exact evol_of _ _ rfl (fun x => x)
    | exact evol_of _ _ rfl (fun _ => rfl)

theorem evol_readCallingConv (s : PState) : Evol s (readCallingConv s).2 := by
  simp only [readCallingConv]
  repeat' split
  all_goals first
    | exact evol_of _ _ rfl (fun x => x)
    | exact evol_of _ _ rfl (fun _ => rfl)

theorem evol_readStorageClass (s : PState) : Evol s (readStorageClass s).2 := by
  simp only [readStorageClass]
  repeat' split
  all_goals exact evol_of _ _ rfl (fun x => x)

theorem evol_readSCForReturn (s : PState) : Evol s (readSCForReturn s).2 := by
  simp only [readSCForReturn]
  repeat' split
  all_goals first
    | exact evol_consumeS (by assumption)
    | exact evol_refl s

theorem evol_primTail (s : PState) : Evol s (primTail s).2 := by
  simp only [primTail]
  repeat' split
  all_goals first
    | exact evol_consumeS (by assumption)
    | exact evol_of _ _ rfl (fun _ => rfl)

theorem evol_readPrimType (s : PState) : Evol s (readPrimType s).2 := by
  simp only [readPrimType]
  repeat' split
  all_goals first
    | exact evol_of _ _ rfl (fun x => x)
    | exact evol_primTail s

theorem evol_readDims (d : Nat) : ∀ s : PState, Evol s (readDims d s).2 := by
  induction d with
  | zero => intro s; exact evol_refl s
  | succ d ih =>
    intro s
    simp only [readDims]
    exact evol_trans (evol_readNumber s)
      (evol_trans (evol_bump _) (ih _))

theorem evol_dollarC (s : PState) : Evol s (dollarC s).2 := by
  simp only [dollarC]
  cases h1 : consumeS ['$', '$', 'C'] s with
  | none => exact evol_refl s
  | some s1 =>
    dsimp only
    have e1 := evol_consumeS h1
    cases h2 : consumeS ['B'] s1 with
    | some s' => exact evol_trans e1 (evol_consumeS h2)
    | none =>
      dsimp only
      cases h3 : consumeS ['C'] s1 with
      | some s' => exact evol_trans e1 (evol_consumeS h3)
      | none =>
        dsimp only
        cases h4 : consumeS ['D'] s1 with
        | some s' => exact evol_trans e1 (evol_consumeS h4)
        | none =>
          dsimp only
          cases h5 : consumeS ['A'] s1 with
          | some s' => exact evol_trans e1 (evol_consumeS h5)
          | none => exact evol_trans e1 (evol_of _ _ rfl (fun _ => rfl))

theorem wrap32_eq_self (x : Int) (h0 : 0 ≤ x) (h1 : x < 2147483648) : wrap32 x = x := by
  unfold wrap32
  rw [Int.emod_eq_of_lt (by omega) (by omega)]
  omega

theorem hexAcc_le (ds : List Char) : ∀ a : Int, 0 ≤ a →
    (∀ c ∈ ds, 65 ≤ c.toNat) → a ≤ hexAcc a ds := by
  induction ds with
  | nil => intro a _ _; simp [hexAcc]
  | cons c ds ih =>
    intro a ha hd
    have hc : 65 ≤ c.toNat := hd c (by simp)
    have h1 : a ≤ 16 * a + ((c.toNat : Int) - 65) := by omega
    have h2 : (0 : Int) ≤ 16 * a + ((c.toNat : Int) - 65) := by omega
    have h3 := ih (16 * a + ((c.toNat : Int) - 65)) h2 (fun x hx => hd x (by simp [hx]))
    simpa [hexAcc] using le_trans h1 h3

theorem readNumLoop_hex (ds : List Char) : ∀ (rest : List Char) (a : Int),
    (∀ c ∈ ds, 65 ≤ c.toNat ∧ c.toNat ≤ 80) → 0 ≤ a → hexAcc a ds < 2147483648 →
    readNumLoop (ds ++ '@' :: rest) a = some (hexAcc a ds, rest) := by
  induction ds with
  | nil => intro rest a _ _ _; simp [readNumLoop, hexAcc]
  | cons c ds ih =>
    intro rest a hd ha hb
    have hc := hd c (by simp)
    have hne : ¬(c = '@') := by
      intro h; subst h; exact absurd hc (by decide)
    have hstep : hexAcc a (c :: ds) = hexAcc (16 * a + ((c.toNat : Int) - 65)) ds := by
      simp [hexAcc]
    have h2 : (0 : Int) ≤ 16 * a + ((c.toNat : Int) - 65) := by omega
    have h3 : 16 * a + ((c.toNat : Int) - 65) < 2147483648 := by
      have := hexAcc_le ds (16 * a + ((c.toNat : Int) - 65)) h2
        (fun x hx => (hd x (by simp [hx])).1)
      omega
    have hw := wrap32_eq_self (16 * a + ((c.toNat : Int) - 65)) h2 h3
    have hrec := ih rest (16 * a + ((c.toNat : Int) - 65))
      (fun x hx => hd x (by simp [hx])) h2 (by rw [← hstep]; exact hb)
    simp only [List.cons_append, readNumLoop, if_neg hne, if_pos hc, hw, hstep]
    simpa using hrec

/-- `read_name` on a one-byte input holding neither '@' nor a digit never
returns: `read_string` fails without consuming anything and the loop does
not check the error slot. -/
theorem readNameGo_stuck (c : Char) (hc1 : c ≠ '@') (hc2 : ¬(48 ≤ c.toNat ∧ c.toNat ≤ 57)) :
    ∀ (f : Nat) (err : Option String) (t : List (List Char)) (a : Nat)
      (acc : List (List Char)),
      readNameGo f ⟨[c], err, t, a⟩ acc = none := by
  intro f
  induction f with
  | zero => intro err t a acc; rfl
  | succ f ih =>
    intro err t a acc
    simp only [readNameGo, if_neg hc1, if_neg hc2, readString, readStringGo, if_neg hc1,
      recordName]
    split
    · exact ih _ _ _ _
    · exact ih _ _ _ _

theorem evol_readNameGo :
    ∀ (f : Nat) (s : PState) (acc v : List (List Char)) (s' : PState),
      readNameGo f s acc = some (v, s') → Evol s s' := by
  intro f
  induction f with
  | zero => intro s acc v s' h; simp [readNameGo] at h
  | succ f ih =>
    intro s acc v s' h
    simp only [readNameGo] at h
    split at h
    · split at h
      · cases h
        exact evol_of _ _ rfl (fun x => x)
      · split at h
        · split at h
          · refine evol_trans ?_ (ih _ _ _ _ h)
            exact evol_of _ _ rfl (fun x => x)
          · cases h
            exact evol_of _ _ rfl (fun _ => rfl)
        · exact evol_trans (evol_trans (evol_readString s) (evol_recordName _ _))
            (ih _ _ _ _ h)
    · exact evol_trans (evol_trans (evol_readString s) (evol_recordName _ _))
        (ih _ _ _ _ h)

theorem evol_var_mutual : ∀ f : Nat,
    (∀ ty s r, readVarType f ty s = some r → Evol s r.2)
    ∧ (∀ p ty s r, readClassFn f p ty s = some r → Evol s r.2)
    ∧ (∀ ps s r, classParamsLoop f ps s = some r → Evol s r.2)
    ∧ (∀ ps s r, p6aLoop f ps s = some r → Evol s r.2) := by
  intro f
  induction f with
  | zero =>
    refine ⟨?_, ?_, ?_, ?_⟩
    · intro ty s r h; simp [readVarType] at h
    · intro p ty s r h; simp [readClassFn] at h
    · intro ps s r h; simp [classParamsLoop] at h
    · intro ps s r h; simp [p6aLoop] at h
  | succ f ih =>
    obtain ⟨ihV, ihC, ihL, ihP⟩ := ih
    refine ⟨?_, ?_, ?_, ?_⟩
    · -- readVarType
      intro ty s r h
      simp only [readVarType] at h
      split at h
      · rename_i s1 hT
        exact evol_trans (evol_consumeS hT) (ihC _ _ _ _ h)
      · split at h
        · rename_i s1 hU
          exact evol_trans (evol_consumeS hU) (ihC _ _ _ _ h)
        · split at h
          · rename_i s1 hV
            exact evol_trans (evol_consumeS hV) (ihC _ _ _ _ h)
          · split at h
            · -- W4 (enum)
              rename_i s1 hW
              split at h
              · exact Option.noConfusion h
              · rename_i nm s2 hN
                cases h
                exact evol_trans (evol_consumeS hW) (evol_readNameGo f s1 [] nm s2 hN)
            · split at h
              · -- P6A (pointer to function)
                rename_i s1 hP6
                split at h
                · exact Option.noConfusion h
                · rename_i retTy s2 hV1
                  split at h
                  · exact Option.noConfusion h
                  · rename_i ps s3 hP
                    cases h
                    exact evol_trans (evol_consumeS hP6)
                      (evol_trans (evol_bump s1)
                        (evol_trans (evol_bump s1.bump)
                          (evol_trans (ihV _ _ _ hV1) (ihP _ _ _ hP))))
              · split at h
                · -- A (reference)
                  rename_i s1 hA
                  split at h
                  · exact Option.noConfusion h
                  · rename_i pt s2 hV1
                    cases h
                    exact evol_trans (evol_consumeS hA)
                      (evol_trans (evol_tryConsume ['E'] s1)
                        (evol_trans (evol_bump _)
                          (evol_trans (evol_readStorageClass _) (ihV _ _ (pt, s2) hV1))))
                · split at h
                  · -- P (pointer)
                    rename_i s1 hP
                    split at h
                    · exact Option.noConfusion h
                    · rename_i pt s2 hV1
                      cases h
                      exact evol_trans (evol_consumeS hP)
                        (evol_trans (evol_tryConsume ['E'] s1)
                          (evol_trans (evol_bump _)
                            (evol_trans (evol_readStorageClass _) (ihV _ _ (pt, s2) hV1))))
                  · split at h
                    · -- Q (const pointer)
                      rename_i s1 hQ
                      split at h
                      · exact Option.noConfusion h
                      · rename_i pt s2 hV1
                        cases h
                        exact evol_trans (evol_consumeS hQ)
                          (evol_trans (evol_tryConsume ['E'] s1)
                            (evol_trans (evol_bump _)
                              (evol_trans (evol_readStorageClass _) (ihV _ _ (pt, s2) hV1))))
                    · split at h
                      · -- Y (array)
                        rename_i s1 hY
                        split at h
                        · cases h
                          exact evol_trans (evol_consumeS hY)
                            (evol_trans (evol_readNumber s1)
                              (evol_of _ _ rfl (fun _ => rfl)))
                        · split at h
                          · exact Option.noConfusion h
                          · rename_i elem s2 hV1
                            cases h
                            exact evol_trans (evol_consumeS hY)
                              (evol_trans (evol_readNumber s1)
                                (evol_trans (evol_readDims _ _)
                                  (evol_trans (evol_dollarC _) (ihV _ _ (elem, s2) hV1))))
                      · -- primitive type
                        cases h
                        exact evol_readPrimType s
    · -- readClassFn
      intro p ty s r h
      simp only [readClassFn] at h
      split at h
      · rename_i s1 hQ
        split at h
        · exact Option.noConfusion h
        · rename_i ps s2 hL
          cases h
          exact evol_trans (evol_consumeS hQ)
            (evol_trans (evol_readString s1) (ihL _ _ _ hL))
      · split at h
        · exact Option.noConfusion h
        · rename_i nm s2 hN
          cases h
          exact evol_readNameGo f s [] nm s2 hN
    · -- classParamsLoop
      intro ps s r h
      simp only [classParamsLoop] at h
      split at h
      · cases h
        exact evol_refl s
      · split at h
        · rename_i s1 hA
          cases h
          exact evol_consumeS hA
        · rename_i hA
          split at h
          · exact Option.noConfusion h
          · rename_i tp s1 hV1
            exact evol_trans (evol_bump s) (evol_trans (ihV _ _ _ hV1) (ihL _ _ _ h))
    · -- p6aLoop
      intro ps s r h
      simp only [p6aLoop] at h
      split at h
      · cases h
        exact evol_refl s
      · split at h
        · rename_i s1 hZ
          cases h
          exact evol_consumeS hZ
        · rename_i hZ
          split at h
          · rename_i s1 hZ2
            cases h
            exact evol_consumeS hZ2
          · rename_i hZ2
            split at h
            · exact Option.noConfusion h
            · rename_i tp s1 hV1
              exact evol_trans (evol_bump s) (evol_trans (ihV _ _ _ hV1) (ihP _ _ _ h))

theorem evol_readFuncReturnType (f : Nat) (ty : Ty) (s : PState) (r : Ty × PState)
    (h : readFuncReturnType f ty s = some r) : Evol s r.2 := by
  simp only [readFuncReturnType] at h
  split at h
  · rename_i s1 hA
    cases h
    exact evol_consumeS hA
  · rename_i hA
    split at h
    · exact Option.noConfusion h
    · rename_i ty1 s1 hV
      cases h
      exact evol_trans ((evol_var_mutual f).1 _ _ (ty1, s1) hV) (evol_tryConsume ['@'] s1)

theorem evol_parseParamsAt :
    ∀ (f : Nat) (ps : List Ty) (s : PState) (r : List Ty × PState),
      parseParamsAt f ps s = some r → Evol s r.2 := by
  intro f
  induction f with
  | zero => intro ps s r h; simp [parseParamsAt] at h
  | succ f ih =>
    intro ps s r h
    simp only [parseParamsAt] at h
    split at h
    · split at h
      · exact Option.noConfusion h
      · rename_i tp s1 hV
        exact evol_trans (evol_bump s)
          (evol_trans ((evol_var_mutual f).1 _ _ (tp, s1) hV) (ih _ _ _ h))
    · cases h
      exact evol_refl s

theorem evol_parseParamsZ :
    ∀ (f : Nat) (ps : List Ty) (s : PState) (r : List Ty × PState),
      parseParamsZ f ps s = some r → Evol s r.2 := by
  intro f
  induction f with
  | zero => intro ps s r h; simp [parseParamsZ] at h
  | succ f ih =>
    intro ps s r h
    simp only [parseParamsZ] at h
    split at h
    · split at h
      · exact Option.noConfusion h
      · rename_i tp s1 hV
        exact evol_trans (evol_bump s)
          (evol_trans ((evol_var_mutual f).1 _ _ (tp, s1) hV) (ih _ _ _ h))
    · cases h
      exact evol_refl s

theorem evol_parseTail (f : Nat) (s1 : PState) (r : List (List Char) × Ty × PState)
    (h : parseTail f s1 = some r) : Evol s1 r.2.2 := by
  simp only [parseTail] at h
  split at h
  · exact Option.noConfusion h
  · rename_i sym s2 hN
    have eN := evol_readNameGo f s1 [] sym s2 hN
    split at h
    · rename_i s3 h3
      split at h
      · exact Option.noConfusion h
      · rename_i ty s4 hV
        cases h
        exact evol_trans eN
          (evol_trans (evol_consumeS h3) ((evol_var_mutual f).1 _ _ (ty, s4) hV))
    · rename_i h3
      split at h
      · rename_i s3 hY
        split at h
        · exact Option.noConfusion h
        · rename_i retTy s5 hV
          split at h
          · exact Option.noConfusion h
          · rename_i ps s6 hP
            cases h
            exact evol_trans eN (evol_trans (evol_consumeS hY)
              (evol_trans (evol_readCallingConv s3)
                (evol_trans (evol_bump _)
                  (evol_trans (evol_readSCForReturn _)
                    (evol_trans ((evol_var_mutual f).1 _ _ (retTy, s5) hV)
                      (evol_parseParamsAt f [] s5 (ps, s6) hP))))))
      · rename_i hY
        split at h
        · exact Option.noConfusion h
        · rename_i retTy s5 hR
          split at h
          · exact Option.noConfusion h
          · rename_i ps s6 hP
            cases h
            exact evol_trans eN
              (evol_trans (evol_readFuncClass s2)
                (evol_trans (evol_tryConsume ['E'] _)
                  (evol_trans (evol_readCallingConv _)
                    (evol_trans (evol_bump _)
                      (evol_trans (evol_readStorageClass _)
                        (evol_trans (evol_readFuncReturnType f _ _ (retTy, s5) hR)
                          (evol_parseParamsZ f [] s5 (ps, s6) hP)))))))

theorem evol_parse (f : Nat) (s0 : PState) (r : List (List Char) × Ty × PState)
    (h : parse f s0 = some r) : Evol s0 r.2.2 := by
  simp only [parse] at h
  cases hq : consumeS ['?'] s0 with
  | none =>
    rw [hq] at h
    exact evol_parseTail f s0 r h
  | some s1 =>
    rw [hq] at h
    exact evol_trans (evol_consumeS hq) (evol_parseTail f s1 r h)

theorem readStringGo_no_at :
    ∀ (str tail acc : List Char), '@' ∉ str →
      readStringGo (str ++ '@' :: tail) acc = some (acc.reverse ++ str, tail) := by
  intro str
  induction str with
  | nil => intro tail acc _; simp [readStringGo]
  | cons c cs ih =>
    intro tail acc hm
    have hc : ¬(c = '@') := by
      intro h
      exact hm (by simp [h])
    simp only [List.cons_append, readStringGo, if_neg hc, List.append_eq]
    rw [ih tail (c :: acc) (fun hx => hm (by simp [hx]))]
    simp

/-! ## Consumed-prefix characterization of error-free runs

An error-free run of any parser function depends only on the bytes it
consumed: the run decomposes the input as `C ++ leftover` and replays
identically on `C ++ Y` for any `Y`.  This is what makes bytes after a
complete variable symbol irrelevant (claim C10). -/

theorem char_ne_of_bool {g : Char → Bool} {c q : Char} (h1 : g c = true) (h2 : g q = false) :
    c ≠ q := by
  intro he
  subst he
  rw [h1] at h2
  exact Bool.noConfusion h2

theorem errNone_of_evol {s s' : PState} (e : Evol s s') (h : s'.error = none) :
    s.error = none := by
  cases hs : s.error with
  | none => rfl
  | some msg =>
    have h2 := e.1 (by simp [hs])
    rw [h] at h2
    exact Bool.noConfusion h2

theorem isPrefixOf_append_self (p Y : List Char) : List.isPrefixOf p (p ++ Y) = true := by
  induction p with
  | nil => simp [List.isPrefixOf]
  | cons a p ih => simp [List.isPrefixOf, ih]

theorem eq_append_drop_of_isPrefixOf :
    ∀ (p X : List Char), List.isPrefixOf p X = true → X = p ++ X.drop p.length := by
  intro p
  induction p with
  | nil => intro X _; simp
  | cons a p ih =>
    intro X h
    cases X with
    | nil => simp [List.isPrefixOf] at h
    | cons b X' =>
      simp only [List.isPrefixOf, Bool.and_eq_true, beq_iff_eq] at h
      obtain ⟨h1, h2⟩ := h
      subst h1
      simpa using ih X' h2

theorem consumeS_replay (p Y : List Char) (n : List (List Char)) (a : Nat) :
    consumeS p ⟨p ++ Y, none, n, a⟩ = some ⟨Y, none, n, a⟩ := by
  unfold consumeS
  rw [if_pos (isPrefixOf_append_self p Y)]
  simp [List.drop_left]

theorem consumeS_some_decomp {p : List Char} {s s' : PState} (h : consumeS p s = some s') :
    s.input = p ++ s'.input ∧ s'.error = s.error ∧ s'.names = s.names ∧ s'.allocs = s.allocs := by
  unfold consumeS at h
  split at h
  · rename_i hp
    cases h
    exact ⟨eq_append_drop_of_isPrefixOf p s.input hp, rfl, rfl, rfl⟩
  · cases h

theorem consumeS_cons_ne {q c : Char} (p Z : List Char) (e : Option String)
    (n : List (List Char)) (a : Nat) (h : q ≠ c) :
    consumeS (q :: p) ⟨c :: Z, e, n, a⟩ = none := by
  unfold consumeS
  rw [if_neg]
  simp [List.isPrefixOf, h]

theorem consumeS_cons_cons_snd_ne {q1 q2 c2 : Char} (p Z : List Char) (e : Option String)
    (n : List (List Char)) (a : Nat) (h : q2 ≠ c2) :
    consumeS (q1 :: q2 :: p) ⟨q1 :: c2 :: Z, e, n, a⟩ = none := by
  unfold consumeS
  rw [if_neg]
  simp [List.isPrefixOf, h]

theorem consumeS_none_nil {q : Char} (p : List Char) (e : Option String)
    (n : List (List Char)) (a : Nat) :
    consumeS (q :: p) ⟨[], e, n, a⟩ = none := by
  unfold consumeS
  rw [if_neg]
  simp [List.isPrefixOf]

theorem readStringGo_some :
    ∀ (X acc out rest : List Char), readStringGo X acc = some (out, rest) →
      ∃ mid, X = mid ++ '@' :: rest ∧ out = acc.reverse ++ mid ∧ '@' ∉ mid := by
  intro X
  induction X with
  | nil => intro acc out rest h; simp [readStringGo] at h
  | cons c X' ih =>
    intro acc out rest h
    simp only [readStringGo] at h
    split at h
    · rename_i hc
      subst hc
      cases h
      exact ⟨[], by simp, by simp, by simp⟩
    · rename_i hc
      obtain ⟨mid, hX, hout, hmem⟩ := ih (c :: acc) out rest h
      refine ⟨c :: mid, by simp [hX], by simpa using hout, ?_⟩
      intro hm
      rcases List.mem_cons.mp hm with h1 | h1
      · exact hc h1.symm
      · exact hmem h1

theorem readNumLoop_some :
    ∀ (X : List Char) (acc v : Int) (rest : List Char), readNumLoop X acc = some (v, rest) →
      ∃ ds, X = ds ++ '@' :: rest ∧
        ∀ Y, readNumLoop (ds ++ '@' :: Y) acc = some (v, Y) := by
  intro X
  induction X with
  | nil => intro acc v rest h; simp [readNumLoop] at h
  | cons c X' ih =>
    intro acc v rest h
    simp only [readNumLoop] at h
    split at h
    · rename_i hc
      subst hc
      cases h
      exact ⟨[], by simp, fun Y => by simp [readNumLoop]⟩
    · rename_i hc
      split at h
      · rename_i hhex
        obtain ⟨ds, hX, hrep⟩ := ih _ v rest h
        refine ⟨c :: ds, by simp [hX], ?_⟩
        intro Y
        simpa [readNumLoop, hc, hhex] using hrep Y
      · exact Option.noConfusion h

theorem recordName_error (str : List Char) (s : PState) :
    (recordName str s).error = s.error := by
  unfold recordName
  split <;> rfl

theorem recordName_input (str : List Char) (s : PState) :
    (recordName str s).input = s.input := by
  unfold recordName
  split <;> rfl

theorem ext_readString {s : PState} {str : List Char} {s' : PState}
    (h : readString s = (str, s')) (he' : s'.error = none) :
    s.input = str ++ '@' :: s'.input ∧ '@' ∉ str
      ∧ s'.error = s.error ∧ s'.names = s.names ∧ s'.allocs = s.allocs
      ∧ ∀ Y, readString ⟨str ++ '@' :: Y, none, s.names, s.allocs⟩
          = (str, ⟨Y, none, s.names, s.allocs⟩) := by
  unfold readString at h
  split at h
  · rename_i out rest hgo
    cases h
    obtain ⟨mid, hX, hout, hmem⟩ := readStringGo_some s.input [] str rest hgo
    simp only [List.reverse_nil, List.nil_append] at hout
    rw [← hout] at hX hmem
    refine ⟨by simpa using hX, hmem, rfl, rfl, rfl, ?_⟩
    intro Y
    unfold readString
    rw [readStringGo_no_at str Y [] hmem]
    simp
  · cases h
    exact absurd he' (by simp)

theorem ext_readNameGo :
    ∀ (f : Nat) (s : PState) (acc v : List (List Char)) (s' : PState),
      readNameGo f s acc = some (v, s') → s.error = none → s'.error = none →
      ∃ C, C ≠ [] ∧ s.input = C ++ s'.input ∧
        (∀ C', C = '?' :: C' → C' ≠ []) ∧
        ∀ Y, readNameGo f ⟨C ++ Y, none, s.names, s.allocs⟩ acc
            = some (v, ⟨Y, none, s'.names, s'.allocs⟩) := by
  intro f
  induction f with
  | zero => intro s acc v s' h _ _; simp [readNameGo] at h
  | succ f ih =>
    intro s acc v s' h he he'
    simp only [readNameGo] at h
    split at h
    · rename_i c rest hin
      split at h
      · rename_i hc
        subst hc
        cases h
        refine ⟨['@'], by simp, by simp [hin], ?_, ?_⟩
        · intro C' hC
          simp at hC
        · intro Y
          simp [readNameGo]
      · rename_i hc
        split at h
        · rename_i hdig
          split at h
          · rename_i hlt
            obtain ⟨C', hC'ne, hdecomp, _, hrep⟩ := ih _ _ _ _ h he he'
            refine ⟨c :: C', by simp, ?_, ?_, ?_⟩
            · rw [hin]
              simpa using hdecomp
            · intro C'' hC
              cases hC
              exact absurd hdig (by decide)
            · intro Y
              simp only [readNameGo, List.cons_append]
              rw [if_neg hc, if_pos hdig, dif_pos hlt]
              exact hrep Y
          · cases h
            exact absurd he' (by simp)
        · rename_i hdig
          cases hgo : readStringGo s.input [] with
          | none =>
            have herr : (recordName (readString s).1 (readString s).2).error.isSome = true := by
              rw [recordName_error]
              unfold readString
              rw [hgo]
              rfl
            have h2 := (evol_readNameGo f _ _ v s' h).1 herr
            rw [he'] at h2
            exact Bool.noConfusion h2
          | some pr =>
            obtain ⟨out, rest'⟩ := pr
            have hrs : readString s = (out, { s with input := rest' }) := by
              unfold readString
              rw [hgo]
            rw [hrs] at h
            obtain ⟨mid, hX, hout, hmem⟩ := readStringGo_some s.input [] out rest' hgo
            simp only [List.reverse_nil, List.nil_append] at hout
            rw [← hout] at hX hmem
            obtain ⟨C', hC'ne, hdecomp, _, hrep⟩ := ih _ _ _ _ h (by rw [recordName_error]; exact he) he'
            rw [recordName_input] at hdecomp
            dsimp only at hdecomp
            have hmidc : ∃ mid', out = c :: mid' := by
              cases hm2 : out with
              | nil =>
                rw [hin, hm2] at hX
                simp at hX
                exact absurd hX.1 hc
              | cons m mid' =>
                rw [hin, hm2] at hX
                simp at hX
                exact ⟨mid', by rw [hX.1]⟩
            obtain ⟨mid', hmid⟩ := hmidc
            refine ⟨out ++ '@' :: C', by simp, ?_, ?_, ?_⟩
            · rw [hX]
              simp [hdecomp]
            · intro C'' hC
              rw [hmid] at hC
              cases hC
              simp
            · intro Y
              rw [hmid]
              simp only [readNameGo, List.cons_append, List.append_assoc]
              rw [if_neg hc, if_neg hdig]
              have hreplay := readStringGo_no_at out (C' ++ Y) [] hmem
              rw [hmid] at hreplay
              simp only [List.cons_append, List.reverse_nil, List.nil_append] at hreplay
              have hrs2 : readString ⟨c :: (mid' ++ '@' :: (C' ++ Y)), none, s.names, s.allocs⟩
                  = (c :: mid', (⟨C' ++ Y, none, s.names, s.allocs⟩ : PState)) := by
                unfold readString
                simp only []
                rw [hreplay]
              rw [hrs2]
              have hstate : recordName (c :: mid') (⟨C' ++ Y, none, s.names, s.allocs⟩ : PState)
                  = ⟨C' ++ Y, none,
                      (recordName out { s with input := rest' }).names,
                      (recordName out { s with input := rest' }).allocs⟩ := by
                rw [hmid]
                by_cases h10 : s.names.length < 10 <;> simp [recordName, h10]
              rw [hstate, ← hmid]
              exact hrep Y
    · rename_i hin
      have herr : (recordName (readString s).1 (readString s).2).error.isSome = true := by
        rw [recordName_error]
        unfold readString
        rw [hin]
        rfl
      have h2 := (evol_readNameGo f _ _ v s' h).1 herr
      rw [he'] at h2
      exact Bool.noConfusion h2

theorem consumeS_single_none_head {q c : Char} {Z : List Char} {s : PState}
    (h : consumeS [q] s = none) (hin : s.input = c :: Z) : q ≠ c := by
  unfold consumeS at h
  split at h
  · exact Option.noConfusion h
  · rename_i hp
    intro he
    subst he
    rw [hin] at hp
    exact hp (by simp [List.isPrefixOf])

theorem primTyOf_start {c : Char} {t : PrimTy} (h : primTyOf c = some t) :
    primStart c = true ∧ vstart c = true := by
  by_cases h1 : c = 'X'
  · subst h1; exact ⟨by decide, by decide⟩
  by_cases h2 : c = 'D'
  · subst h2; exact ⟨by decide, by decide⟩
  by_cases h3 : c = 'C'
  · subst h3; exact ⟨by decide, by decide⟩
  by_cases h4 : c = 'E'
  · subst h4; exact ⟨by decide, by decide⟩
  by_cases h5 : c = 'F'
  · subst h5; exact ⟨by decide, by decide⟩
  by_cases h6 : c = 'G'
  · subst h6; exact ⟨by decide, by decide⟩
  by_cases h7 : c = 'H'
  · subst h7; exact ⟨by decide, by decide⟩
  by_cases h8 : c = 'I'
  · subst h8; exact ⟨by decide, by decide⟩
  by_cases h9 : c = 'J'
  · subst h9; exact ⟨by decide, by decide⟩
  by_cases h10 : c = 'K'
  · subst h10; exact ⟨by decide, by decide⟩
  by_cases h11 : c = 'M'
  · subst h11; exact ⟨by decide, by decide⟩
  by_cases h12 : c = 'N'
  · subst h12; exact ⟨by decide, by decide⟩
  by_cases h13 : c = 'O'
  · subst h13; exact ⟨by decide, by decide⟩
  exfalso
  unfold primTyOf at h
  rw [if_neg h1, if_neg h2, if_neg h3, if_neg h4, if_neg h5, if_neg h6, if_neg h7,
    if_neg h8, if_neg h9, if_neg h10, if_neg h11, if_neg h12, if_neg h13] at h
  exact Option.noConfusion h

theorem ext_readNumber :
    ∀ (s : PState) (v : Int) (s' : PState), readNumber s = (v, s') →
      s.error = none → s'.error = none →
      ∃ C, s.input = C ++ s'.input ∧ s'.names = s.names ∧ s'.allocs = s.allocs ∧
        ∀ Y, readNumber ⟨C ++ Y, none, s.names, s.allocs⟩
            = (v, ⟨Y, none, s.names, s.allocs⟩) := by
  intro s v s' h he he'
  simp only [readNumber] at h
  cases hq : consumeS ['?'] s with
  | some s1 =>
    rw [hq] at h
    obtain ⟨hd1, hd2, hd3, hd4⟩ := consumeS_some_decomp hq
    dsimp only at h
    cases hi : s1.input with
    | cons c rest =>
      rw [hi] at h
      dsimp only at h
      split at h
      · -- single decimal digit
        rename_i hdig
        cases h
        refine ⟨['?', c], by simp [hd1, hi], by simp [hd3], by simp [hd4], ?_⟩
        intro Y
        have hcons : consumeS ['?'] (⟨'?' :: c :: Y, none, s.names, s.allocs⟩ : PState)
            = some ⟨c :: Y, none, s.names, s.allocs⟩ :=
          consumeS_replay ['?'] (c :: Y) s.names s.allocs
        simp [readNumber, hcons, hdig, hd3, hd4]
      · -- hex digits terminated by '@'
        rename_i hdig
        simp only [numTail] at h
        cases hloop : readNumLoop s1.input 0 with
        | none =>
          rw [hloop] at h
          cases h
          exact absurd he' (by simp)
        | some pr =>
          obtain ⟨v0, rest0⟩ := pr
          rw [hloop] at h
          cases h
          obtain ⟨ds, hds, hrep⟩ := readNumLoop_some s1.input 0 v0 rest0 hloop
          refine ⟨'?' :: (ds ++ ['@']), by simp [hd1, hds], by simp [hd3], by simp [hd4], ?_⟩
          intro Y
          have hcons : consumeS ['?'] (⟨'?' :: (ds ++ ['@'] ++ Y), none, s.names, s.allocs⟩ : PState)
              = some ⟨ds ++ ['@'] ++ Y, none, s.names, s.allocs⟩ :=
            consumeS_replay ['?'] (ds ++ ['@'] ++ Y) s.names s.allocs
          have hY := hrep Y
          -- head of `ds ++ '@' :: Y` is the same byte c, so the digit test fails again
          cases hds0 : ds with
          | nil =>
            subst hds0
            rw [hi] at hds
            simp only [List.cons_append, List.nil_append, List.append_assoc] at hds hY hcons ⊢
            simp at hds
            obtain ⟨hdc, h2⟩ := hds
            subst hdc
            unfold readNumber
            rw [hcons]
            dsimp only
            rw [if_neg (by decide)]
            simp only [numTail]
            rw [hY]
          | cons d ds' =>
            subst hds0
            rw [hi] at hds
            simp only [List.cons_append, List.nil_append, List.append_assoc] at hds hY hcons ⊢
            simp at hds
            obtain ⟨hdc, h2⟩ := hds
            subst hdc
            unfold readNumber
            rw [hcons]
            dsimp only
            rw [if_neg hdig]
            simp only [numTail]
            rw [hY]
    | nil =>
      rw [hi] at h
      dsimp only at h
      simp only [numTail, hi, readNumLoop] at h
      cases h
      exact absurd he' (by simp)
  | none =>
    rw [hq] at h
    dsimp only at h
    cases hi : s.input with
    | cons c rest =>
      rw [hi] at h
      dsimp only at h
      have hq2 : ('?' : Char) ≠ c := consumeS_single_none_head hq hi
      split at h
      · rename_i hdig
        cases h
        refine ⟨[c], by simp [hi], rfl, rfl, ?_⟩
        intro Y
        have hcons : consumeS ['?'] (⟨c :: Y, none, s.names, s.allocs⟩ : PState) = none :=
          consumeS_cons_ne [] Y none s.names s.allocs hq2
        simp [readNumber, hcons, hdig]
      · rename_i hdig
        simp only [numTail] at h
        cases hloop : readNumLoop s.input 0 with
        | none =>
          rw [hloop] at h
          cases h
          exact absurd he' (by simp)
        | some pr =>
          obtain ⟨v0, rest0⟩ := pr
          rw [hloop] at h
          cases h
          obtain ⟨ds, hds, hrep⟩ := readNumLoop_some s.input 0 v0 rest0 hloop
          refine ⟨ds ++ ['@'], by rw [← hi, hds]; simp, rfl, rfl, ?_⟩
          intro Y
          have hY := hrep Y
          cases hds0 : ds with
          | nil =>
            subst hds0
            rw [hi] at hds
            simp only [List.cons_append, List.nil_append, List.append_assoc] at hds hY ⊢
            simp at hds
            obtain ⟨hdc, h2⟩ := hds
            subst hdc
            have hcons : consumeS ['?'] (⟨'@' :: Y, none, s.names, s.allocs⟩ : PState) = none :=
              consumeS_cons_ne [] Y none s.names s.allocs hq2
            unfold readNumber
            rw [hcons]
            dsimp only
            rw [if_neg (by decide)]
            simp only [numTail]
            rw [hY]
          | cons d ds' =>
            subst hds0
            rw [hi] at hds
            simp only [List.cons_append, List.nil_append, List.append_assoc] at hds hY ⊢
            simp at hds
            obtain ⟨hdc, h2⟩ := hds
            subst hdc
            have hcons : consumeS ['?'] (⟨c :: (ds' ++ '@' :: Y), none, s.names, s.allocs⟩ : PState)
                = none :=
              consumeS_cons_ne [] (ds' ++ '@' :: Y) none s.names s.allocs hq2
            unfold readNumber
            rw [hcons]
            dsimp only
            rw [if_neg hdig]
            simp only [numTail]
            rw [hY]
    | nil =>
      rw [hi] at h
      dsimp only at h
      simp only [numTail, hi, readNumLoop] at h
      cases h
      exact absurd he' (by simp)

theorem consumeS_none_of_nil {q : Char} {p : List Char} {s : PState} (hi : s.input = []) :
    consumeS (q :: p) s = none := by
  unfold consumeS
  rw [hi]
  simp [List.isPrefixOf]

theorem consumeS_none_of_head {q c : Char} {p Z : List Char} {s : PState}
    (hi : s.input = c :: Z) (hqc : q ≠ c) : consumeS (q :: p) s = none := by
  unfold consumeS
  rw [hi]
  simp [List.isPrefixOf, hqc]

theorem consumeS_pair_none_snd {q1 q2 x : Char} {Z : List Char} {s : PState}
    (h : consumeS [q1, q2] s = none) (hi : s.input = q1 :: x :: Z) : q2 ≠ x := by
  intro he
  subst he
  unfold consumeS at h
  rw [hi] at h
  simp [List.isPrefixOf] at h

theorem consumeS_head_some {q : Char} {Z : List Char} {s : PState} (hi : s.input = q :: Z) :
    consumeS [q] s = some { s with input := Z } := by
  unfold consumeS
  rw [hi]
  simp [List.isPrefixOf]

theorem vstart_ne {c : Char} (h : vstart c = true) :
    c ≠ '@' ∧ c ≠ 'Z' ∧ c ≠ '6' ∧ c ≠ '$' :=
  ⟨char_ne_of_bool h (by decide), char_ne_of_bool h (by decide),
   char_ne_of_bool h (by decide), char_ne_of_bool h (by decide)⟩

theorem primStart_ne {c : Char} (h : primStart c = true) :
    c ≠ 'T' ∧ c ≠ 'U' ∧ c ≠ 'V' ∧ c ≠ 'W' ∧ c ≠ 'P' ∧ c ≠ 'A' ∧ c ≠ 'Q' ∧ c ≠ 'Y' :=
  ⟨char_ne_of_bool h (by decide), char_ne_of_bool h (by decide),
   char_ne_of_bool h (by decide), char_ne_of_bool h (by decide),
   char_ne_of_bool h (by decide), char_ne_of_bool h (by decide),
   char_ne_of_bool h (by decide), char_ne_of_bool h (by decide)⟩

theorem readVarType_input_nil_error :
    ∀ (f : Nat) (ty : Ty) (s : PState) (v : Ty) (s2 : PState),
      s.input = [] → readVarType f ty s = some (v, s2) → s2.error ≠ none := by
  intro f ty s v s2 hi h
  cases f with
  | zero => simp [readVarType] at h
  | succ f =>
    simp only [readVarType] at h
    rw [consumeS_none_of_nil hi] at h
    rw [consumeS_none_of_nil hi] at h
    rw [consumeS_none_of_nil hi] at h
    rw [consumeS_none_of_nil hi] at h
    rw [consumeS_none_of_nil hi] at h
    rw [consumeS_none_of_nil hi] at h
    rw [consumeS_none_of_nil hi] at h
    rw [consumeS_none_of_nil hi] at h
    rw [consumeS_none_of_nil hi] at h
    dsimp only at h
    simp only [readPrimType] at h
    rw [hi] at h
    dsimp only at h
    simp only [primTail] at h
    rw [consumeS_none_of_nil hi] at h
    rw [consumeS_none_of_nil hi] at h
    rw [consumeS_none_of_nil hi] at h
    rw [consumeS_none_of_nil hi] at h
    dsimp only at h
    cases h
    simp

theorem ext_readPrimType {s : PState} {t : PrimTy} {s' : PState}
    (h : readPrimType s = (t, s')) (he' : s'.error = none) :
    ∃ c C', primStart c = true ∧ vstart c = true ∧ s.input = c :: C' ++ s'.input ∧
      s'.error = s.error ∧ s'.names = s.names ∧ s'.allocs = s.allocs ∧
      ∀ Y, readPrimType ⟨c :: C' ++ Y, none, s.names, s.allocs⟩
          = (t, ⟨Y, none, s.names, s.allocs⟩) := by
  cases hi : s.input with
  | nil =>
    simp only [readPrimType] at h
    rw [hi] at h
    dsimp only at h
    simp only [primTail] at h
    rw [consumeS_none_of_nil hi] at h
    rw [consumeS_none_of_nil hi] at h
    rw [consumeS_none_of_nil hi] at h
    rw [consumeS_none_of_nil hi] at h
    dsimp only at h
    cases h
    simp at he'
  | cons c rest =>
    simp only [readPrimType] at h
    rw [hi] at h
    dsimp only at h
    cases hp : primTyOf c with
    | some t0 =>
      rw [hp] at h
      dsimp only at h
      cases h
      obtain ⟨hps, hvs⟩ := primTyOf_start hp
      refine ⟨c, [], hps, hvs, by simp [hi], rfl, rfl, rfl, ?_⟩
      intro Y
      simp only [readPrimType, List.cons_append, List.nil_append]
      rw [hp]
    | none =>
      rw [hp] at h
      dsimp only at h
      simp only [primTail] at h
      cases hN : consumeS ['_', 'N'] s with
      | some s1 =>
        rw [hN] at h
        dsimp only at h
        cases h
        obtain ⟨hd1, hd2, hd3, hd4⟩ := consumeS_some_decomp hN
        refine ⟨'_', ['N'], by decide, by decide, by rw [← hi, hd1], hd2, hd3, hd4, ?_⟩
        intro Y
        have hr : consumeS ['_', 'N'] (⟨'_' :: 'N' :: Y, none, s.names, s.allocs⟩ : PState)
            = some ⟨Y, none, s.names, s.allocs⟩ := consumeS_replay ['_', 'N'] Y s.names s.allocs
        simp only [readPrimType, List.cons_append, List.nil_append]
        rw [show primTyOf '_' = none from by decide]
        dsimp only
        simp only [primTail]
        rw [hr]
      | none =>
        rw [hN] at h
        dsimp only at h
        cases hJ : consumeS ['_', 'J'] s with
        | some s1 =>
          rw [hJ] at h
          dsimp only at h
          cases h
          obtain ⟨hd1, hd2, hd3, hd4⟩ := consumeS_some_decomp hJ
          refine ⟨'_', ['J'], by decide, by decide, by rw [← hi, hd1], hd2, hd3, hd4, ?_⟩
          intro Y
          have hr : consumeS ['_', 'J'] (⟨'_' :: 'J' :: Y, none, s.names, s.allocs⟩ : PState)
              = some ⟨Y, none, s.names, s.allocs⟩ := consumeS_replay ['_', 'J'] Y s.names s.allocs
          simp only [readPrimType, List.cons_append, List.nil_append]
          rw [show primTyOf '_' = none from by decide]
          dsimp only
          simp only [primTail]
          rw [consumeS_cons_cons_snd_ne [] Y none s.names s.allocs (by decide), hr]
        | none =>
          rw [hJ] at h
          dsimp only at h
          cases hK : consumeS ['_', 'K'] s with
          | some s1 =>
            rw [hK] at h
            dsimp only at h
            cases h
            obtain ⟨hd1, hd2, hd3, hd4⟩ := consumeS_some_decomp hK
            refine ⟨'_', ['K'], by decide, by decide, by rw [← hi, hd1], hd2, hd3, hd4, ?_⟩
            intro Y
            have hr : consumeS ['_', 'K'] (⟨'_' :: 'K' :: Y, none, s.names, s.allocs⟩ : PState)
                = some ⟨Y, none, s.names, s.allocs⟩ := consumeS_replay ['_', 'K'] Y s.names s.allocs
            simp only [readPrimType, List.cons_append, List.nil_append]
            rw [show primTyOf '_' = none from by decide]
            dsimp only
            simp only [primTail]
            rw [consumeS_cons_cons_snd_ne [] Y none s.names s.allocs (by decide)]
            rw [consumeS_cons_cons_snd_ne [] Y none s.names s.allocs (by decide), hr]
          | none =>
            rw [hK] at h
            dsimp only at h
            cases hW : consumeS ['_', 'W'] s with
            | some s1 =>
              rw [hW] at h
              dsimp only at h
              cases h
              obtain ⟨hd1, hd2, hd3, hd4⟩ := consumeS_some_decomp hW
              refine ⟨'_', ['W'], by decide, by decide, by rw [← hi, hd1], hd2, hd3, hd4, ?_⟩
              intro Y
              have hr : consumeS ['_', 'W'] (⟨'_' :: 'W' :: Y, none, s.names, s.allocs⟩ : PState)
                  = some ⟨Y, none, s.names, s.allocs⟩ :=
                consumeS_replay ['_', 'W'] Y s.names s.allocs
              simp only [readPrimType, List.cons_append, List.nil_append]
              rw [show primTyOf '_' = none from by decide]
              dsimp only
              simp only [primTail]
              rw [consumeS_cons_cons_snd_ne [] Y none s.names s.allocs (by decide)]
              rw [consumeS_cons_cons_snd_ne [] Y none s.names s.allocs (by decide)]
              rw [consumeS_cons_cons_snd_ne [] Y none s.names s.allocs (by decide), hr]
            | none =>
              rw [hW] at h
              dsimp only at h
              cases h
              simp at he'

theorem ext_readDims :
    ∀ (d : Nat) (s : PState) (vs : List Int) (s' : PState),
      readDims d s = (vs, s') → s.error = none → s'.error = none →
      s'.names = s.names ∧ ∃ C, s.input = C ++ s'.input ∧
        ∀ Y, readDims d ⟨C ++ Y, none, s.names, s.allocs⟩
            = (vs, ⟨Y, none, s.names, s'.allocs⟩) := by
  intro d
  induction d with
  | zero =>
    intro s vs s' h he he'
    simp only [readDims] at h
    cases h
    exact ⟨rfl, [], by simp, fun Y => by simp [readDims]⟩
  | succ d ih =>
    intro s vs s' h he he'
    simp only [readDims] at h
    cases hr1 : readNumber s with
    | mk n1 t1 =>
      rw [hr1] at h
      dsimp only at h
      cases hr2 : readDims d t1.bump with
      | mk vs2 t2 =>
        rw [hr2] at h
        dsimp only at h
        cases h
        have ht1e : t1.error = none := by
          have hev : Evol t1.bump s' := by
            have := evol_readDims d t1.bump
            rw [hr2] at this
            exact this
          exact errNone_of_evol hev he'
        obtain ⟨C1, hin1, hn1, ha1, hrep1⟩ := ext_readNumber s n1 t1 hr1 he ht1e
        obtain ⟨hn2, C2, hin2, hrep2⟩ := ih t1.bump vs2 s' hr2 ht1e he'
        simp only [PState.bump] at hn2 hin2 hrep2
        refine ⟨by rw [hn2, hn1], C1 ++ C2, ?_, ?_⟩
        · rw [hin1]
          rw [hin2, List.append_assoc]
        · intro Y
          simp only [readDims]
          have h1 := hrep1 (C2 ++ Y)
          rw [List.append_assoc, h1]
          dsimp only
          have h2 := hrep2 Y
          rw [hn1, ha1] at h2
          have hbump : (⟨C2 ++ Y, none, s.names, s.allocs⟩ : PState).bump
              = ⟨C2 ++ Y, none, s.names, s.allocs + 1⟩ := rfl
          rw [hbump, h2]

theorem dollarC_none_probe {s : PState} (h : consumeS ['$', '$', 'C'] s = none) :
    dollarC s = (none, s) := by
  unfold dollarC
  rw [h]

theorem ext_dollarC_some {s s1 : PState} {o : Option Nat} {s' : PState}
    (hq : consumeS ['$', '$', 'C'] s = some s1)
    (h : dollarC s = (o, s')) (he' : s'.error = none) :
    ∃ x, s.input = '$' :: '$' :: 'C' :: x :: s'.input ∧
      s'.names = s.names ∧ s'.allocs = s.allocs ∧
      ∀ Y, dollarC ⟨'$' :: '$' :: 'C' :: x :: Y, none, s.names, s.allocs⟩
          = (o, ⟨Y, none, s.names, s.allocs⟩) := by
  unfold dollarC at h
  rw [hq] at h
  dsimp only at h
  obtain ⟨hd1, hd2, hd3, hd4⟩ := consumeS_some_decomp hq
  cases hB : consumeS ['B'] s1 with
  | some s2 =>
    rw [hB] at h
    dsimp only at h
    cases h
    obtain ⟨he1, he2, he3, he4⟩ := consumeS_some_decomp hB
    refine ⟨'B', by rw [hd1, he1]; rfl, by rw [he3, hd3], by rw [he4, hd4], ?_⟩
    intro Y
    have hr1 : consumeS ['$', '$', 'C']
        (⟨'$' :: '$' :: 'C' :: 'B' :: Y, none, s.names, s.allocs⟩ : PState)
        = some ⟨'B' :: Y, none, s.names, s.allocs⟩ :=
      consumeS_replay ['$', '$', 'C'] ('B' :: Y) s.names s.allocs
    have hr2 : consumeS ['B'] (⟨'B' :: Y, none, s.names, s.allocs⟩ : PState)
        = some ⟨Y, none, s.names, s.allocs⟩ := consumeS_replay ['B'] Y s.names s.allocs
    unfold dollarC
    rw [hr1]
    dsimp only
    rw [hr2]
  | none =>
    rw [hB] at h
    dsimp only at h
    cases hC : consumeS ['C'] s1 with
    | some s2 =>
      rw [hC] at h
      dsimp only at h
      cases h
      obtain ⟨he1, he2, he3, he4⟩ := consumeS_some_decomp hC
      refine ⟨'C', by rw [hd1, he1]; rfl, by rw [he3, hd3], by rw [he4, hd4], ?_⟩
      intro Y
      have hr1 : consumeS ['$', '$', 'C']
          (⟨'$' :: '$' :: 'C' :: 'C' :: Y, none, s.names, s.allocs⟩ : PState)
          = some ⟨'C' :: Y, none, s.names, s.allocs⟩ :=
        consumeS_replay ['$', '$', 'C'] ('C' :: Y) s.names s.allocs
      have hr2 : consumeS ['C'] (⟨'C' :: Y, none, s.names, s.allocs⟩ : PState)
          = some ⟨Y, none, s.names, s.allocs⟩ := consumeS_replay ['C'] Y s.names s.allocs
      unfold dollarC
      rw [hr1]
      dsimp only
      rw [consumeS_cons_ne [] Y none s.names s.allocs (by decide), hr2]
    | none =>
      rw [hC] at h
      dsimp only at h
      cases hD : consumeS ['D'] s1 with
      | some s2 =>
        rw [hD] at h
        dsimp only at h
        cases h
        obtain ⟨he1, he2, he3, he4⟩ := consumeS_some_decomp hD
        refine ⟨'D', by rw [hd1, he1]; rfl, by rw [he3, hd3], by rw [he4, hd4], ?_⟩
        intro Y
        have hr1 : consumeS ['$', '$', 'C']
            (⟨'$' :: '$' :: 'C' :: 'D' :: Y, none, s.names, s.allocs⟩ : PState)
            = some ⟨'D' :: Y, none, s.names, s.allocs⟩ :=
          consumeS_replay ['$', '$', 'C'] ('D' :: Y) s.names s.allocs
        have hr2 : consumeS ['D'] (⟨'D' :: Y, none, s.names, s.allocs⟩ : PState)
            = some ⟨Y, none, s.names, s.allocs⟩ := consumeS_replay ['D'] Y s.names s.allocs
        unfold dollarC
        rw [hr1]
        dsimp only
        rw [consumeS_cons_ne [] Y none s.names s.allocs (by decide)]
        rw [consumeS_cons_ne [] Y none s.names s.allocs (by decide), hr2]
      | none =>
        rw [hD] at h
        dsimp only at h
        cases hA : consumeS ['A'] s1 with
        | some s2 =>
          rw [hA] at h
          dsimp only at h
          cases h
          obtain ⟨he1, he2, he3, he4⟩ := consumeS_some_decomp hA
          refine ⟨'A', by rw [hd1, he1]; rfl, by rw [he3, hd3], by rw [he4, hd4], ?_⟩
          intro Y
          have hr1 : consumeS ['$', '$', 'C']
              (⟨'$' :: '$' :: 'C' :: 'A' :: Y, none, s.names, s.allocs⟩ : PState)
              = some ⟨'A' :: Y, none, s.names, s.allocs⟩ :=
            consumeS_replay ['$', '$', 'C'] ('A' :: Y) s.names s.allocs
          have hr2 : consumeS ['A'] (⟨'A' :: Y, none, s.names, s.allocs⟩ : PState)
              = some ⟨Y, none, s.names, s.allocs⟩ := consumeS_replay ['A'] Y s.names s.allocs
          unfold dollarC
          rw [hr1]
          dsimp only
          rw [consumeS_cons_ne [] Y none s.names s.allocs (by decide)]
          rw [consumeS_cons_ne [] Y none s.names s.allocs (by decide)]
          rw [consumeS_cons_ne [] Y none s.names s.allocs (by decide), hr2]
        | none =>
          rw [hA] at h
          dsimp only at h
          cases h
          simp at he'

theorem ext_ptrCore (f : Nat) (ihV : ExtV f) (s' : PState) (pt : Ty) (s2 : PState)
    (h : readVarType f (defaultTy.setSclass (readStorageClass ((tryConsume ['E'] s').bump)).1)
        ((readStorageClass ((tryConsume ['E'] s').bump)).2) = some (pt, s2))
    (he : s'.error = none) (he2 : s2.error = none) :
    ∃ D, D ≠ [] ∧ D.headD ' ' ≠ '6' ∧ s'.input = D ++ s2.input ∧
      ∀ Y, readVarType f
          (defaultTy.setSclass (readStorageClass ((tryConsume ['E']
            (⟨D ++ Y, none, s'.names, s'.allocs⟩ : PState)).bump)).1)
          ((readStorageClass ((tryConsume ['E']
            (⟨D ++ Y, none, s'.names, s'.allocs⟩ : PState)).bump)).2)
        = some (pt, ⟨Y, none, s2.names, s2.allocs⟩) := by
  cases hsi : s'.input with
  | nil =>
    have htc : tryConsume ['E'] s' = s' := by
      unfold tryConsume
      rw [consumeS_none_of_nil hsi]
      rfl
    have hbi : ((tryConsume ['E'] s').bump).input = [] := by rw [htc]; exact hsi
    have hrs : readStorageClass ((tryConsume ['E'] s').bump)
        = (0, (tryConsume ['E'] s').bump) := by
      unfold readStorageClass
      rw [hbi]
    rw [hrs] at h
    dsimp only at h
    exact absurd he2 (readVarType_input_nil_error f _ _ pt s2 hbi h)
  | cons c rest =>
    by_cases hcE : c = 'E'
    · subst hcE
      have hce : consumeS ['E'] s' = some { s' with input := rest } := consumeS_head_some hsi
      have htc : tryConsume ['E'] s' = { s' with input := rest } := by
        unfold tryConsume
        rw [hce]
        rfl
      have hu : (tryConsume ['E'] s').bump = ⟨rest, none, s'.names, s'.allocs + 1⟩ := by
        rw [htc]
        simp [PState.bump, he]
      rw [hu] at h
      cases hrest : rest with
      | nil =>
        rw [hrest] at h
        have hrs : readStorageClass (⟨[], none, s'.names, s'.allocs + 1⟩ : PState)
            = (0, ⟨[], none, s'.names, s'.allocs + 1⟩) := by
          unfold readStorageClass
          rfl
        rw [hrs] at h
        dsimp only at h
        exact absurd he2 (readVarType_input_nil_error f _ _ pt s2 rfl h)
      | cons d rest2 =>
        rw [hrest] at h
        cases hsc : storageClassOf d with
        | some w =>
          have hrs : readStorageClass (⟨d :: rest2, none, s'.names, s'.allocs + 1⟩ : PState)
              = (w, ⟨rest2, none, s'.names, s'.allocs + 1⟩) := by
            simp [readStorageClass, hsc]
          rw [hrs] at h
          dsimp only at h
          obtain ⟨CV, hne, hvst, hinV, hrepV⟩ := ihV _ _ _ _ h rfl he2
          dsimp only at hinV hrepV
          refine ⟨'E' :: d :: CV, by simp, ?_, ?_, ?_⟩
          · show ('E' : Char) ≠ '6'
            decide
          · rw [hinV]
            simp
          · intro Y
            simp only [List.cons_append]
            have r1 : tryConsume ['E']
                (⟨'E' :: (d :: (CV ++ Y)), none, s'.names, s'.allocs⟩ : PState)
                = ⟨d :: (CV ++ Y), none, s'.names, s'.allocs⟩ := by
              unfold tryConsume
              rw [consumeS_head_some rfl]
              rfl
            rw [r1]
            have r2 : (⟨d :: (CV ++ Y), none, s'.names, s'.allocs⟩ : PState).bump
                = ⟨d :: (CV ++ Y), none, s'.names, s'.allocs + 1⟩ := rfl
            rw [r2]
            have r3 : readStorageClass (⟨d :: (CV ++ Y), none, s'.names, s'.allocs + 1⟩ : PState)
                = (w, ⟨CV ++ Y, none, s'.names, s'.allocs + 1⟩) := by
              simp [readStorageClass, hsc]
            rw [r3]
            exact hrepV Y
        | none =>
          have hrs : readStorageClass (⟨d :: rest2, none, s'.names, s'.allocs + 1⟩ : PState)
              = (0, ⟨d :: rest2, none, s'.names, s'.allocs + 1⟩) := by
            simp [readStorageClass, hsc]
          rw [hrs] at h
          dsimp only at h
          obtain ⟨CV, hne, hvst, hinV, hrepV⟩ := ihV _ _ _ _ h rfl he2
          dsimp only at hinV hrepV
          cases CV with
          | nil => exact absurd rfl hne
          | cons e C'' =>
            rw [List.cons_append] at hinV
            injection hinV with hde hrest2
            subst hde
            refine ⟨'E' :: d :: C'', by simp, ?_, ?_, ?_⟩
            · show ('E' : Char) ≠ '6'
              decide
            · rw [hrest2]
              simp
            · intro Y
              simp only [List.cons_append]
              have r1 : tryConsume ['E']
                  (⟨'E' :: (d :: (C'' ++ Y)), none, s'.names, s'.allocs⟩ : PState)
                  = ⟨d :: (C'' ++ Y), none, s'.names, s'.allocs⟩ := by
                unfold tryConsume
                rw [consumeS_head_some rfl]
                rfl
              rw [r1]
              have r2 : (⟨d :: (C'' ++ Y), none, s'.names, s'.allocs⟩ : PState).bump
                  = ⟨d :: (C'' ++ Y), none, s'.names, s'.allocs + 1⟩ := rfl
              rw [r2]
              have r3 : readStorageClass
                  (⟨d :: (C'' ++ Y), none, s'.names, s'.allocs + 1⟩ : PState)
                  = (0, ⟨d :: (C'' ++ Y), none, s'.names, s'.allocs + 1⟩) := by
                simp [readStorageClass, hsc]
              rw [r3]
              have hr := hrepV Y
              rw [List.cons_append] at hr
              exact hr
    · have hcn : consumeS ['E'] s' = none := consumeS_none_of_head hsi (Ne.symm hcE)
      have htc : tryConsume ['E'] s' = s' := by
        unfold tryConsume
        rw [hcn]
        rfl
      have hu : (tryConsume ['E'] s').bump = ⟨c :: rest, none, s'.names, s'.allocs + 1⟩ := by
        rw [htc]
        simp [PState.bump, he, hsi]
      rw [hu] at h
      cases hsc : storageClassOf c with
      | some w =>
        have hc6 : c ≠ '6' := by
          intro hh
          subst hh
          rw [show storageClassOf '6' = none from by decide] at hsc
          exact Option.noConfusion hsc
        have hrs : readStorageClass (⟨c :: rest, none, s'.names, s'.allocs + 1⟩ : PState)
            = (w, ⟨rest, none, s'.names, s'.allocs + 1⟩) := by
          simp [readStorageClass, hsc]
        rw [hrs] at h
        dsimp only at h
        obtain ⟨CV, hne, hvst, hinV, hrepV⟩ := ihV _ _ _ _ h rfl he2
        dsimp only at hinV hrepV
        refine ⟨c :: CV, by simp, ?_, ?_, ?_⟩
        · show c ≠ '6'
          exact hc6
        · rw [hinV]
          simp
        · intro Y
          simp only [List.cons_append]
          have r1 : tryConsume ['E'] (⟨c :: (CV ++ Y), none, s'.names, s'.allocs⟩ : PState)
              = ⟨c :: (CV ++ Y), none, s'.names, s'.allocs⟩ := by
            unfold tryConsume
            rw [consumeS_cons_ne [] (CV ++ Y) none s'.names s'.allocs (Ne.symm hcE)]
            rfl
          rw [r1]
          have r2 : (⟨c :: (CV ++ Y), none, s'.names, s'.allocs⟩ : PState).bump
              = ⟨c :: (CV ++ Y), none, s'.names, s'.allocs + 1⟩ := rfl
          rw [r2]
          have r3 : readStorageClass (⟨c :: (CV ++ Y), none, s'.names, s'.allocs + 1⟩ : PState)
              = (w, ⟨CV ++ Y, none, s'.names, s'.allocs + 1⟩) := by
            simp [readStorageClass, hsc]
          rw [r3]
          exact hrepV Y
      | none =>
        have hrs : readStorageClass (⟨c :: rest, none, s'.names, s'.allocs + 1⟩ : PState)
            = (0, ⟨c :: rest, none, s'.names, s'.allocs + 1⟩) := by
          simp [readStorageClass, hsc]
        rw [hrs] at h
        dsimp only at h
        obtain ⟨CV, hne, hvst, hinV, hrepV⟩ := ihV _ _ _ _ h rfl he2
        dsimp only at hinV hrepV
        cases CV with
        | nil => exact absurd rfl hne
        | cons e C'' =>
          rw [List.cons_append] at hinV
          injection hinV with hde hrest2
          subst hde
          have hc6 : c ≠ '6' := (vstart_ne (by simpa using hvst)).2.2.1
          refine ⟨c :: C'', by simp, ?_, ?_, ?_⟩
          · show c ≠ '6'
            exact hc6
          · rw [hrest2]
            simp
          · intro Y
            simp only [List.cons_append]
            have r1 : tryConsume ['E'] (⟨c :: (C'' ++ Y), none, s'.names, s'.allocs⟩ : PState)
                = ⟨c :: (C'' ++ Y), none, s'.names, s'.allocs⟩ := by
              unfold tryConsume
              rw [consumeS_cons_ne [] (C'' ++ Y) none s'.names s'.allocs (Ne.symm hcE)]
              rfl
            rw [r1]
            have r2 : (⟨c :: (C'' ++ Y), none, s'.names, s'.allocs⟩ : PState).bump
                = ⟨c :: (C'' ++ Y), none, s'.names, s'.allocs + 1⟩ := rfl
            rw [r2]
            have r3 : readStorageClass (⟨c :: (C'' ++ Y), none, s'.names, s'.allocs + 1⟩ : PState)
                = (0, ⟨c :: (C'' ++ Y), none, s'.names, s'.allocs + 1⟩) := by
              simp [readStorageClass, hsc]
            rw [r3]
            have hr := hrepV Y
            rw [List.cons_append] at hr
            exact hr

theorem classParamsLoop_step (f : Nat) (ps : List Ty) (inp : List Char)
    (n : List (List Char)) (a : Nat) :
    classParamsLoop (f + 1) ps ⟨inp, none, n, a⟩
      = (match consumeS ['@'] (⟨inp, none, n, a⟩ : PState) with
         | some s1 => some (ps, s1)
         | none =>
           match readVarType f defaultTy ((⟨inp, none, n, a⟩ : PState)).bump with
           | none => none
           | some (tp, s1) => classParamsLoop f (ps ++ [tp]) s1) := by
  simp [classParamsLoop]

theorem p6aLoop_step (f : Nat) (ps : List Ty) (inp : List Char)
    (n : List (List Char)) (a : Nat) :
    p6aLoop (f + 1) ps ⟨inp, none, n, a⟩
      = (match consumeS ['@', 'Z'] (⟨inp, none, n, a⟩ : PState) with
         | some s1 => some (ps, s1)
         | none =>
           match consumeS ['Z'] (⟨inp, none, n, a⟩ : PState) with
           | some s1 => some (ps, s1)
           | none =>
             match readVarType f defaultTy ((⟨inp, none, n, a⟩ : PState)).bump with
             | none => none
             | some (tp, s1) => p6aLoop f (ps ++ [tp]) s1) := by
  simp [p6aLoop]

theorem extL_step (f : Nat) (ihV : ExtV f) (ihL : ExtL f) : ExtL (f + 1) := by
  intro ps s v s' h he he'
  simp only [classParamsLoop] at h
  split at h
  · rename_i herr
    exact absurd he herr
  · rename_i herr
    split at h
    · rename_i s1 hA
      cases h
      obtain ⟨hd1, hd2, hd3, hd4⟩ := consumeS_some_decomp hA
      refine ⟨['@'], by rw [hd1], ?_⟩
      intro Y
      rw [classParamsLoop_step]
      have hc : consumeS ['@'] (⟨['@'] ++ Y, none, s.names, s.allocs⟩ : PState)
          = some ⟨Y, none, s.names, s.allocs⟩ := consumeS_replay ['@'] Y s.names s.allocs
      rw [hc, hd3, hd4]
    · rename_i hAn
      split at h
      · exact Option.noConfusion h
      · rename_i tp s1 hV1
        have hs1e : s1.error = none :=
          errNone_of_evol ((evol_var_mutual f).2.2.1 _ _ _ h) he'
        have hbe : (s.bump).error = none := he
        obtain ⟨CV, hCVne, hvst, hinV, hrepV⟩ := ihV _ _ _ _ hV1 hbe hs1e
        simp only [PState.bump] at hinV hrepV
        obtain ⟨CL, hinL, hrepL⟩ := ihL _ _ _ _ h hs1e he'
        refine ⟨CV ++ CL, ?_, ?_⟩
        · rw [hinV, hinL, List.append_assoc]
        · intro Y
          rw [classParamsLoop_step]
          cases CV with
          | nil => exact absurd rfl hCVne
          | cons cv CV' =>
            have hcv : cv ≠ '@' := (vstart_ne (by simpa using hvst)).1
            simp only [List.cons_append, List.append_assoc]
            rw [@consumeS_cons_ne '@' cv [] (CV' ++ (CL ++ Y)) none s.names s.allocs
              (Ne.symm hcv)]
            have hb : (⟨cv :: (CV' ++ (CL ++ Y)), none, s.names, s.allocs⟩ : PState).bump
                = ⟨cv :: (CV' ++ (CL ++ Y)), none, s.names, s.allocs + 1⟩ := rfl
            rw [hb]
            have hr := hrepV (CL ++ Y)
            simp only [List.cons_append, List.append_assoc] at hr
            rw [hr]
            exact hrepL Y

theorem extP_step (f : Nat) (ihV : ExtV f) (ihP : ExtP f) : ExtP (f + 1) := by
  intro ps s v s' h he he'
  simp only [p6aLoop] at h
  split at h
  · rename_i herr
    exact absurd he herr
  · rename_i herr
    split at h
    · rename_i s1 hZ2
      cases h
      obtain ⟨hd1, hd2, hd3, hd4⟩ := consumeS_some_decomp hZ2
      refine ⟨['@', 'Z'], by rw [hd1], ?_⟩
      intro Y
      rw [p6aLoop_step]
      have hc : consumeS ['@', 'Z'] (⟨['@', 'Z'] ++ Y, none, s.names, s.allocs⟩ : PState)
          = some ⟨Y, none, s.names, s.allocs⟩ := consumeS_replay ['@', 'Z'] Y s.names s.allocs
      rw [hc, hd3, hd4]
    · rename_i hZ2n
      split at h
      · rename_i s1 hZ
        cases h
        obtain ⟨hd1, hd2, hd3, hd4⟩ := consumeS_some_decomp hZ
        refine ⟨['Z'], by rw [hd1], ?_⟩
        intro Y
        rw [p6aLoop_step]
        have hc2 : consumeS ['@', 'Z'] (⟨['Z'] ++ Y, none, s.names, s.allocs⟩ : PState)
            = none := @consumeS_cons_ne '@' 'Z' ['Z'] Y none s.names s.allocs (by decide)
        rw [hc2]
        have hc : consumeS ['Z'] (⟨['Z'] ++ Y, none, s.names, s.allocs⟩ : PState)
            = some ⟨Y, none, s.names, s.allocs⟩ := consumeS_replay ['Z'] Y s.names s.allocs
        rw [hc, hd3, hd4]
      · rename_i hZn
        split at h
        · exact Option.noConfusion h
        · rename_i tp s1 hV1
          have hs1e : s1.error = none :=
            errNone_of_evol ((evol_var_mutual f).2.2.2 _ _ _ h) he'
          have hbe : (s.bump).error = none := he
          obtain ⟨CV, hCVne, hvst, hinV, hrepV⟩ := ihV _ _ _ _ hV1 hbe hs1e
          simp only [PState.bump] at hinV hrepV
          obtain ⟨CP, hinP, hrepP⟩ := ihP _ _ _ _ h hs1e he'
          refine ⟨CV ++ CP, ?_, ?_⟩
          · rw [hinV, hinP, List.append_assoc]
          · intro Y
            rw [p6aLoop_step]
            cases CV with
            | nil => exact absurd rfl hCVne
            | cons cv CV' =>
              have hne := vstart_ne (by simpa using hvst)
              simp only [List.cons_append, List.append_assoc]
              rw [@consumeS_cons_ne '@' cv ['Z'] (CV' ++ (CP ++ Y)) none s.names s.allocs
                (Ne.symm hne.1)]
              rw [@consumeS_cons_ne 'Z' cv [] (CV' ++ (CP ++ Y)) none s.names s.allocs
                (Ne.symm hne.2.1)]
              have hb : (⟨cv :: (CV' ++ (CP ++ Y)), none, s.names, s.allocs⟩ : PState).bump
                  = ⟨cv :: (CV' ++ (CP ++ Y)), none, s.names, s.allocs + 1⟩ := rfl
              rw [hb]
              have hr := hrepV (CP ++ Y)
              simp only [List.cons_append, List.append_assoc] at hr
              rw [hr]
              exact hrepP Y

theorem extC_step (f : Nat) (ihL : ExtL f) : ExtC (f + 1) := by
  intro p ty s v s' h he he'
  simp only [readClassFn] at h
  split at h
  · rename_i s1 hQ
    obtain ⟨hd1, hd2, hd3, hd4⟩ := consumeS_some_decomp hQ
    cases hrs : readString s1 with
    | mk str t1 =>
      rw [hrs] at h
      dsimp only at h
      split at h
      · exact Option.noConfusion h
      · rename_i ps s2 hL
        cases h
        have ht1e : t1.error = none :=
          errNone_of_evol ((evol_var_mutual f).2.2.1 _ _ _ hL) he'
        obtain ⟨hinS, hmem, herrS, hnS, haS, hrepS⟩ := ext_readString hrs ht1e
        obtain ⟨CL, hinL, hrepL⟩ := ihL _ _ _ _ hL ht1e he'
        refine ⟨'?' :: '$' :: (str ++ '@' :: CL), ?_, ?_⟩
        · rw [hd1, hinS, hinL]
          simp
        · intro Y
          simp only [List.cons_append, List.append_assoc]
          simp only [readClassFn]
          have hq2 : consumeS ['?', '$']
              (⟨'?' :: ('$' :: (str ++ ('@' :: (CL ++ Y)))), none, s.names, s.allocs⟩ : PState)
              = some ⟨str ++ ('@' :: (CL ++ Y)), none, s.names, s.allocs⟩ :=
            consumeS_replay ['?', '$'] (str ++ ('@' :: (CL ++ Y))) s.names s.allocs
          rw [hq2]
          dsimp only
          have hr1 := hrepS (CL ++ Y)
          rw [hd3, hd4] at hr1
          rw [hr1]
          dsimp only
          have hr2 := hrepL Y
          rw [hnS, hd3, haS, hd4] at hr2
          rw [hr2]
  · rename_i hQn
    split at h
    · exact Option.noConfusion h
    · rename_i nm s2 hN
      cases h
      obtain ⟨CN, hCNne, hinN, hCNq, hrepN⟩ := ext_readNameGo f s [] nm s' hN he he'
      refine ⟨CN, hinN, ?_⟩
      intro Y
      simp only [readClassFn]
      cases CN with
      | nil => exact absurd rfl hCNne
      | cons c0 CN' =>
        by_cases hc0 : c0 = '?'
        · subst hc0
          cases hCN' : CN' with
          | nil => exact absurd hCN' (hCNq CN' rfl)
          | cons x CN'' =>
            rw [hCN'] at hinN hrepN
            have hsin : s.input = '?' :: x :: (CN'' ++ s'.input) := by
              rw [hinN]
              simp
            have hx : ('$' : Char) ≠ x := consumeS_pair_none_snd hQn hsin
            simp only [List.cons_append]
            rw [@consumeS_cons_cons_snd_ne '?' '$' x [] (CN'' ++ Y) none s.names s.allocs hx]
            have hr := hrepN Y
            simp only [List.cons_append] at hr
            rw [hr]
        · simp only [List.cons_append]
          rw [@consumeS_cons_ne '?' c0 ['$'] (CN' ++ Y) none s.names s.allocs (Ne.symm hc0)]
          have hr := hrepN Y
          simp only [List.cons_append] at hr
          rw [hr]

theorem extV_step (f : Nat) (ihV : ExtV f) (ihC : ExtC f) (ihP : ExtP f) : ExtV (f + 1) := by
  intro ty s v s' h he he'
  simp only [readVarType] at h
  split at h
  · -- T (union)
    rename_i s1 hT
    obtain ⟨hd1, hd2, hd3, hd4⟩ := consumeS_some_decomp hT
    have hs1e : s1.error = none := by rw [hd2]; exact he
    obtain ⟨CC, hinC, hrepC⟩ := ihC _ _ _ _ _ h hs1e he'
    refine ⟨'T' :: CC, by simp, ?_, ?_, ?_⟩
    · show vstart 'T' = true
      decide
    · rw [hd1, hinC]
      rfl
    · intro Y
      simp only [List.cons_append]
      simp only [readVarType]
      have hc : consumeS ['T'] (⟨'T' :: (CC ++ Y), none, s.names, s.allocs⟩ : PState)
          = some ⟨CC ++ Y, none, s.names, s.allocs⟩ :=
        consumeS_replay ['T'] (CC ++ Y) s.names s.allocs
      rw [hc]
      dsimp only
      have hr := hrepC Y
      rw [hd3, hd4] at hr
      exact hr
  · split at h
    · -- U (struct)
      rename_i s1 hU
      obtain ⟨hd1, hd2, hd3, hd4⟩ := consumeS_some_decomp hU
      have hs1e : s1.error = none := by rw [hd2]; exact he
      obtain ⟨CC, hinC, hrepC⟩ := ihC _ _ _ _ _ h hs1e he'
      refine ⟨'U' :: CC, by simp, ?_, ?_, ?_⟩
      · show vstart 'U' = true
        decide
      · rw [hd1, hinC]
        rfl
      · intro Y
        simp only [List.cons_append]
        simp only [readVarType]
        rw [@consumeS_cons_ne 'T' 'U' [] (CC ++ Y) none s.names s.allocs (by decide)]
        have hc : consumeS ['U'] (⟨'U' :: (CC ++ Y), none, s.names, s.allocs⟩ : PState)
            = some ⟨CC ++ Y, none, s.names, s.allocs⟩ :=
          consumeS_replay ['U'] (CC ++ Y) s.names s.allocs
        rw [hc]
        dsimp only
        have hr := hrepC Y
        rw [hd3, hd4] at hr
        exact hr
    · split at h
      · -- V (class)
        rename_i s1 hVp
        obtain ⟨hd1, hd2, hd3, hd4⟩ := consumeS_some_decomp hVp
        have hs1e : s1.error = none := by rw [hd2]; exact he
        obtain ⟨CC, hinC, hrepC⟩ := ihC _ _ _ _ _ h hs1e he'
        refine ⟨'V' :: CC, by simp, ?_, ?_, ?_⟩
        · show vstart 'V' = true
          decide
        · rw [hd1, hinC]
          rfl
        · intro Y
          simp only [List.cons_append]
          simp only [readVarType]
          rw [@consumeS_cons_ne 'T' 'V' [] (CC ++ Y) none s.names s.allocs (by decide)]
          rw [@consumeS_cons_ne 'U' 'V' [] (CC ++ Y) none s.names s.allocs (by decide)]
          have hc : consumeS ['V'] (⟨'V' :: (CC ++ Y), none, s.names, s.allocs⟩ : PState)
              = some ⟨CC ++ Y, none, s.names, s.allocs⟩ :=
            consumeS_replay ['V'] (CC ++ Y) s.names s.allocs
          rw [hc]
          dsimp only
          have hr := hrepC Y
          rw [hd3, hd4] at hr
          exact hr
      · split at h
        · -- W4 (enum)
          rename_i s1 hW
          split at h
          · exact Option.noConfusion h
          · rename_i nm s2 hN
            cases h
            obtain ⟨hd1, hd2, hd3, hd4⟩ := consumeS_some_decomp hW
            have hs1e : s1.error = none := by rw [hd2]; exact he
            obtain ⟨CN, hCNne, hinN, hq, hrepN⟩ := ext_readNameGo f s1 [] nm s' hN hs1e he'
            refine ⟨'W' :: '4' :: CN, by simp, ?_, ?_, ?_⟩
            · show vstart 'W' = true
              decide
            · rw [hd1, hinN]
              rfl
            · intro Y
              simp only [List.cons_append]
              simp only [readVarType]
              rw [@consumeS_cons_ne 'T' 'W' [] ('4' :: (CN ++ Y)) none s.names s.allocs
                (by decide)]
              rw [@consumeS_cons_ne 'U' 'W' [] ('4' :: (CN ++ Y)) none s.names s.allocs
                (by decide)]
              rw [@consumeS_cons_ne 'V' 'W' [] ('4' :: (CN ++ Y)) none s.names s.allocs
                (by decide)]
              have hc : consumeS ['W', '4']
                  (⟨'W' :: ('4' :: (CN ++ Y)), none, s.names, s.allocs⟩ : PState)
                  = some ⟨CN ++ Y, none, s.names, s.allocs⟩ :=
                consumeS_replay ['W', '4'] (CN ++ Y) s.names s.allocs
              rw [hc]
              dsimp only
              have hr := hrepN Y
              rw [hd3, hd4] at hr
              rw [hr]
        · split at h
          · -- P6A (pointer to function)
            rename_i s1 hP6
            split at h
            · exact Option.noConfusion h
            · rename_i retTy s2 hV1
              split at h
              · exact Option.noConfusion h
              · rename_i ps2 s3 hP
                cases h
                obtain ⟨hd1, hd2, hd3, hd4⟩ := consumeS_some_decomp hP6
                have hs2e : s2.error = none :=
                  errNone_of_evol ((evol_var_mutual f).2.2.2 _ _ _ hP) he'
                have hbbe : (s1.bump.bump).error = none := by
                  show s1.error = none
                  rw [hd2]
                  exact he
                obtain ⟨CV, hCVne, hvstV, hinV, hrepV⟩ := ihV _ _ _ _ hV1 hbbe hs2e
                simp only [PState.bump] at hinV hrepV
                obtain ⟨CP, hinP, hrepP⟩ := ihP _ _ _ _ hP hs2e he'
                refine ⟨'P' :: '6' :: 'A' :: (CV ++ CP), by simp, ?_, ?_, ?_⟩
                · show vstart 'P' = true
                  decide
                · rw [hd1, hinV, hinP]
                  simp
                · intro Y
                  simp only [List.cons_append, List.append_assoc]
                  simp only [readVarType]
                  rw [@consumeS_cons_ne 'T' 'P' [] ('6' :: ('A' :: (CV ++ (CP ++ Y)))) none
                    s.names s.allocs (by decide)]
                  rw [@consumeS_cons_ne 'U' 'P' [] ('6' :: ('A' :: (CV ++ (CP ++ Y)))) none
                    s.names s.allocs (by decide)]
                  rw [@consumeS_cons_ne 'V' 'P' [] ('6' :: ('A' :: (CV ++ (CP ++ Y)))) none
                    s.names s.allocs (by decide)]
                  rw [@consumeS_cons_ne 'W' 'P' ['4'] ('6' :: ('A' :: (CV ++ (CP ++ Y)))) none
                    s.names s.allocs (by decide)]
                  have hc : consumeS ['P', '6', 'A']
                      (⟨'P' :: ('6' :: ('A' :: (CV ++ (CP ++ Y)))), none,
                        s.names, s.allocs⟩ : PState)
                      = some ⟨CV ++ (CP ++ Y), none, s.names, s.allocs⟩ :=
                    consumeS_replay ['P', '6', 'A'] (CV ++ (CP ++ Y)) s.names s.allocs
                  rw [hc]
                  dsimp only
                  have hb : (⟨CV ++ (CP ++ Y), none, s.names, s.allocs⟩ : PState).bump.bump
                      = ⟨CV ++ (CP ++ Y), none, s.names, s.allocs + 1 + 1⟩ := rfl
                  rw [hb]
                  have hr := hrepV (CP ++ Y)
                  rw [hd3, hd4] at hr
                  rw [hr]
                  dsimp only
                  have hr2 := hrepP Y
                  rw [hr2]
          · split at h
            · -- A (reference)
              rename_i s1 hA
              split at h
              · exact Option.noConfusion h
              · rename_i pt s2 hV1
                cases h
                obtain ⟨hd1, hd2, hd3, hd4⟩ := consumeS_some_decomp hA
                have hs1e : s1.error = none := by rw [hd2]; exact he
                obtain ⟨D, hDne, hD6, hinD, hrepD⟩ := ext_ptrCore f ihV s1 pt s' hV1 hs1e he'
                refine ⟨'A' :: D, by simp, ?_, ?_, ?_⟩
                · show vstart 'A' = true
                  decide
                · rw [hd1, hinD]
                  rfl
                · intro Y
                  simp only [List.cons_append]
                  simp only [readVarType]
                  rw [@consumeS_cons_ne 'T' 'A' [] (D ++ Y) none s.names s.allocs (by decide)]
                  rw [@consumeS_cons_ne 'U' 'A' [] (D ++ Y) none s.names s.allocs (by decide)]
                  rw [@consumeS_cons_ne 'V' 'A' [] (D ++ Y) none s.names s.allocs (by decide)]
                  rw [@consumeS_cons_ne 'W' 'A' ['4'] (D ++ Y) none s.names s.allocs (by decide)]
                  rw [@consumeS_cons_ne 'P' 'A' ['6', 'A'] (D ++ Y) none s.names s.allocs
                    (by decide)]
                  have hc : consumeS ['A'] (⟨'A' :: (D ++ Y), none, s.names, s.allocs⟩ : PState)
                      = some ⟨D ++ Y, none, s.names, s.allocs⟩ :=
                    consumeS_replay ['A'] (D ++ Y) s.names s.allocs
                  rw [hc]
                  dsimp only
                  have hr := hrepD Y
                  rw [hd3, hd4] at hr
                  rw [hr]
            · split at h
              · -- P (pointer)
                rename_i s1 hPp
                split at h
                · exact Option.noConfusion h
                · rename_i pt s2 hV1
                  cases h
                  obtain ⟨hd1, hd2, hd3, hd4⟩ := consumeS_some_decomp hPp
                  have hs1e : s1.error = none := by rw [hd2]; exact he
                  obtain ⟨D, hDne, hD6, hinD, hrepD⟩ := ext_ptrCore f ihV s1 pt s' hV1 hs1e he'
                  cases D with
                  | nil => exact absurd rfl hDne
                  | cons d D' =>
                    have hd6 : d ≠ '6' := by simpa using hD6
                    refine ⟨'P' :: d :: D', by simp, ?_, ?_, ?_⟩
                    · show vstart 'P' = true
                      decide
                    · rw [hd1, hinD]
                      rfl
                    · intro Y
                      simp only [List.cons_append]
                      simp only [readVarType]
                      rw [@consumeS_cons_ne 'T' 'P' [] (d :: (D' ++ Y)) none s.names s.allocs
                        (by decide)]
                      rw [@consumeS_cons_ne 'U' 'P' [] (d :: (D' ++ Y)) none s.names s.allocs
                        (by decide)]
                      rw [@consumeS_cons_ne 'V' 'P' [] (d :: (D' ++ Y)) none s.names s.allocs
                        (by decide)]
                      rw [@consumeS_cons_ne 'W' 'P' ['4'] (d :: (D' ++ Y)) none s.names s.allocs
                        (by decide)]
                      rw [@consumeS_cons_cons_snd_ne 'P' '6' d ['A'] (D' ++ Y) none s.names
                        s.allocs (Ne.symm hd6)]
                      rw [@consumeS_cons_ne 'A' 'P' [] (d :: (D' ++ Y)) none s.names s.allocs
                        (by decide)]
                      have hc : consumeS ['P']
                          (⟨'P' :: (d :: (D' ++ Y)), none, s.names, s.allocs⟩ : PState)
                          = some ⟨d :: (D' ++ Y), none, s.names, s.allocs⟩ :=
                        consumeS_replay ['P'] (d :: (D' ++ Y)) s.names s.allocs
                      rw [hc]
                      dsimp only
                      have hr := hrepD Y
                      simp only [List.cons_append] at hr
                      rw [hd3, hd4] at hr
                      rw [hr]
              · split at h
                · -- Q (const pointer)
                  rename_i s1 hQ
                  split at h
                  · exact Option.noConfusion h
                  · rename_i pt s2 hV1
                    cases h
                    obtain ⟨hd1, hd2, hd3, hd4⟩ := consumeS_some_decomp hQ
                    have hs1e : s1.error = none := by rw [hd2]; exact he
                    obtain ⟨D, hDne, hD6, hinD, hrepD⟩ :=
                      ext_ptrCore f ihV s1 pt s' hV1 hs1e he'
                    refine ⟨'Q' :: D, by simp, ?_, ?_, ?_⟩
                    · show vstart 'Q' = true
                      decide
                    · rw [hd1, hinD]
                      rfl
                    · intro Y
                      simp only [List.cons_append]
                      simp only [readVarType]
                      rw [@consumeS_cons_ne 'T' 'Q' [] (D ++ Y) none s.names s.allocs
                        (by decide)]
                      rw [@consumeS_cons_ne 'U' 'Q' [] (D ++ Y) none s.names s.allocs
                        (by decide)]
                      rw [@consumeS_cons_ne 'V' 'Q' [] (D ++ Y) none s.names s.allocs
                        (by decide)]
                      rw [@consumeS_cons_ne 'W' 'Q' ['4'] (D ++ Y) none s.names s.allocs
                        (by decide)]
                      rw [@consumeS_cons_ne 'P' 'Q' ['6', 'A'] (D ++ Y) none s.names s.allocs
                        (by decide)]
                      rw [@consumeS_cons_ne 'A' 'Q' [] (D ++ Y) none s.names s.allocs
                        (by decide)]
                      rw [@consumeS_cons_ne 'P' 'Q' [] (D ++ Y) none s.names s.allocs
                        (by decide)]
                      have hc : consumeS ['Q']
                          (⟨'Q' :: (D ++ Y), none, s.names, s.allocs⟩ : PState)
                          = some ⟨D ++ Y, none, s.names, s.allocs⟩ :=
                        consumeS_replay ['Q'] (D ++ Y) s.names s.allocs
                      rw [hc]
                      dsimp only
                      have hr := hrepD Y
                      rw [hd3, hd4] at hr
                      rw [hr]
                · split at h
                  · -- Y (array)
                    rename_i s1 hY
                    obtain ⟨hd1, hd2, hd3, hd4⟩ := consumeS_some_decomp hY
                    have hs1e : s1.error = none := by rw [hd2]; exact he
                    cases hrn : readNumber s1 with
                    | mk n1 t1 =>
                      rw [hrn] at h
                      dsimp only at h
                      split at h
                      · rename_i hle
                        cases h
                        simp at he'
                      · rename_i hpos
                        cases hrd : readDims n1.toNat t1 with
                        | mk ds1 t2 =>
                          rw [hrd] at h
                          dsimp only at h
                          cases hdc : dollarC t2 with
                          | mk o1 t3 =>
                            rw [hdc] at h
                            dsimp only at h
                            split at h
                            · exact Option.noConfusion h
                            · rename_i elem s2 hV1
                              cases h
                              have ht3e : t3.error = none :=
                                errNone_of_evol
                                  ((evol_var_mutual f).1 _ _ (elem, s') hV1) he'
                              have ht2e : t2.error = none := by
                                have hev := evol_dollarC t2
                                rw [hdc] at hev
                                exact errNone_of_evol hev ht3e
                              have ht1e : t1.error = none := by
                                have hev := evol_readDims n1.toNat t1
                                rw [hrd] at hev
                                exact errNone_of_evol hev ht2e
                              obtain ⟨C1, hin1, hn1, ha1, hrep1⟩ :=
                                ext_readNumber s1 n1 t1 hrn hs1e ht1e
                              obtain ⟨hn2, C2, hin2, hrep2⟩ :=
                                ext_readDims n1.toNat t1 ds1 t2 hrd ht1e ht2e
                              obtain ⟨C4, hC4ne, hvst4, hin4, hrep4⟩ :=
                                ihV _ _ _ _ hV1 ht3e he'
                              cases hq3 : consumeS ['$', '$', 'C'] t2 with
                              | none =>
                                have hdcn := dollarC_none_probe hq3
                                rw [hdc] at hdcn
                                injection hdcn with ho1 ht3
                                subst ho1
                                subst ht3
                                cases C4 with
                                | nil => exact absurd rfl hC4ne
                                | cons c4 C4' =>
                                  have hc4 : c4 ≠ '$' :=
                                    (vstart_ne (by simpa using hvst4)).2.2.2
                                  refine ⟨'Y' :: (C1 ++ (C2 ++ (c4 :: C4'))), by simp,
                                    ?_, ?_, ?_⟩
                                  · show vstart 'Y' = true
                                    decide
                                  · rw [hd1, hin1, hin2, hin4]
                                    simp
                                  · intro Y
                                    simp only [List.cons_append, List.append_assoc]
                                    simp only [readVarType]
                                    rw [@consumeS_cons_ne 'T' 'Y' []
                                      (C1 ++ (C2 ++ (c4 :: (C4' ++ Y)))) none s.names s.allocs
                                      (by decide)]
                                    rw [@consumeS_cons_ne 'U' 'Y' []
                                      (C1 ++ (C2 ++ (c4 :: (C4' ++ Y)))) none s.names s.allocs
                                      (by decide)]
                                    rw [@consumeS_cons_ne 'V' 'Y' []
                                      (C1 ++ (C2 ++ (c4 :: (C4' ++ Y)))) none s.names s.allocs
                                      (by decide)]
                                    rw [@consumeS_cons_ne 'W' 'Y' ['4']
                                      (C1 ++ (C2 ++ (c4 :: (C4' ++ Y)))) none s.names s.allocs
                                      (by decide)]
                                    rw [@consumeS_cons_ne 'P' 'Y' ['6', 'A']
                                      (C1 ++ (C2 ++ (c4 :: (C4' ++ Y)))) none s.names s.allocs
                                      (by decide)]
                                    rw [@consumeS_cons_ne 'A' 'Y' []
                                      (C1 ++ (C2 ++ (c4 :: (C4' ++ Y)))) none s.names s.allocs
                                      (by decide)]
                                    rw [@consumeS_cons_ne 'P' 'Y' []
                                      (C1 ++ (C2 ++ (c4 :: (C4' ++ Y)))) none s.names s.allocs
                                      (by decide)]
                                    rw [@consumeS_cons_ne 'Q' 'Y' []
                                      (C1 ++ (C2 ++ (c4 :: (C4' ++ Y)))) none s.names s.allocs
                                      (by decide)]
                                    have hc : consumeS ['Y']
                                        (⟨'Y' :: (C1 ++ (C2 ++ (c4 :: (C4' ++ Y)))), none,
                                          s.names, s.allocs⟩ : PState)
                                        = some ⟨C1 ++ (C2 ++ (c4 :: (C4' ++ Y))), none,
                                            s.names, s.allocs⟩ :=
                                      consumeS_replay ['Y'] (C1 ++ (C2 ++ (c4 :: (C4' ++ Y))))
                                        s.names s.allocs
                                    rw [hc]
                                    dsimp only
                                    have hr1 := hrep1 (C2 ++ (c4 :: (C4' ++ Y)))
                                    rw [hd3, hd4] at hr1
                                    rw [hr1]
                                    dsimp only
                                    rw [if_neg hpos]
                                    have hr2 := hrep2 (c4 :: (C4' ++ Y))
                                    rw [hn1, hd3] at hr2
                                    rw [ha1, hd4] at hr2
                                    rw [hr2]
                                    dsimp only
                                    have hq3' : consumeS ['$', '$', 'C']
                                        (⟨c4 :: (C4' ++ Y), none, s.names,
                                          t3.allocs⟩ : PState) = none :=
                                      @consumeS_cons_ne '$' c4 ['$', 'C'] (C4' ++ Y) none
                                        s.names t3.allocs (Ne.symm hc4)
                                    rw [dollarC_none_probe hq3']
                                    dsimp only
                                    have hr4 := hrep4 Y
                                    rw [hn2, hn1, hd3] at hr4
                                    simp only [List.cons_append] at hr4
                                    rw [hr4]
                              | some s3 =>
                                obtain ⟨x, hin3, hn3, ha3, hrep3⟩ :=
                                  ext_dollarC_some hq3 hdc ht3e
                                refine ⟨'Y' :: (C1 ++ (C2 ++
                                    ('$' :: '$' :: 'C' :: x :: C4))), by simp, ?_, ?_, ?_⟩
                                · show vstart 'Y' = true
                                  decide
                                · rw [hd1, hin1, hin2, hin3, hin4]
                                  simp
                                · intro Y
                                  simp only [List.cons_append, List.append_assoc]
                                  simp only [readVarType]
                                  rw [@consumeS_cons_ne 'T' 'Y' []
                                    (C1 ++ (C2 ++ ('$' :: '$' :: 'C' :: x :: (C4 ++ Y)))) none
                                    s.names s.allocs (by decide)]
                                  rw [@consumeS_cons_ne 'U' 'Y' []
                                    (C1 ++ (C2 ++ ('$' :: '$' :: 'C' :: x :: (C4 ++ Y)))) none
                                    s.names s.allocs (by decide)]
                                  rw [@consumeS_cons_ne 'V' 'Y' []
                                    (C1 ++ (C2 ++ ('$' :: '$' :: 'C' :: x :: (C4 ++ Y)))) none
                                    s.names s.allocs (by decide)]
                                  rw [@consumeS_cons_ne 'W' 'Y' ['4']
                                    (C1 ++ (C2 ++ ('$' :: '$' :: 'C' :: x :: (C4 ++ Y)))) none
                                    s.names s.allocs (by decide)]
                                  rw [@consumeS_cons_ne 'P' 'Y' ['6', 'A']
                                    (C1 ++ (C2 ++ ('$' :: '$' :: 'C' :: x :: (C4 ++ Y)))) none
                                    s.names s.allocs (by decide)]
                                  rw [@consumeS_cons_ne 'A' 'Y' []
                                    (C1 ++ (C2 ++ ('$' :: '$' :: 'C' :: x :: (C4 ++ Y)))) none
                                    s.names s.allocs (by decide)]
                                  rw [@consumeS_cons_ne 'P' 'Y' []
                                    (C1 ++ (C2 ++ ('$' :: '$' :: 'C' :: x :: (C4 ++ Y)))) none
                                    s.names s.allocs (by decide)]
                                  rw [@consumeS_cons_ne 'Q' 'Y' []
                                    (C1 ++ (C2 ++ ('$' :: '$' :: 'C' :: x :: (C4 ++ Y)))) none
                                    s.names s.allocs (by decide)]
                                  have hc : consumeS ['Y']
                                      (⟨'Y' :: (C1 ++ (C2 ++
                                          ('$' :: '$' :: 'C' :: x :: (C4 ++ Y)))), none,
                                        s.names, s.allocs⟩ : PState)
                                      = some ⟨C1 ++ (C2 ++
                                          ('$' :: '$' :: 'C' :: x :: (C4 ++ Y))), none,
                                          s.names, s.allocs⟩ :=
                                    consumeS_replay ['Y']
                                      (C1 ++ (C2 ++ ('$' :: '$' :: 'C' :: x :: (C4 ++ Y))))
                                      s.names s.allocs
                                  rw [hc]
                                  dsimp only
                                  have hr1 := hrep1
                                    (C2 ++ ('$' :: '$' :: 'C' :: x :: (C4 ++ Y)))
                                  rw [hd3, hd4] at hr1
                                  rw [hr1]
                                  dsimp only
                                  rw [if_neg hpos]
                                  have hr2 := hrep2 ('$' :: '$' :: 'C' :: x :: (C4 ++ Y))
                                  rw [hn1, hd3] at hr2
                                  rw [ha1, hd4] at hr2
                                  rw [hr2]
                                  dsimp only
                                  have hr3 := hrep3 (C4 ++ Y)
                                  rw [hn2, hn1, hd3] at hr3
                                  rw [hr3]
                                  dsimp only
                                  have hr4 := hrep4 Y
                                  rw [hn3, hn2, hn1, hd3] at hr4
                                  rw [ha3] at hr4
                                  rw [hr4]
                  · -- primitive type
                    cases hrp : readPrimType s with
                    | mk t0 t1r =>
                      rw [hrp] at h
                      dsimp only at h
                      cases h
                      obtain ⟨c, C', hps, hvs, hinP, herrP, hnP, haP, hrepPm⟩ :=
                        ext_readPrimType hrp he'
                      obtain ⟨hT', hU', hV', hW', hP', hA', hQ', hY'⟩ := primStart_ne hps
                      refine ⟨c :: C', by simp, ?_, ?_, ?_⟩
                      · show vstart c = true
                        exact hvs
                      · exact hinP
                      · intro Y
                        simp only [List.cons_append]
                        simp only [readVarType]
                        rw [@consumeS_cons_ne 'T' c [] (C' ++ Y) none s.names s.allocs
                          (Ne.symm hT')]
                        rw [@consumeS_cons_ne 'U' c [] (C' ++ Y) none s.names s.allocs
                          (Ne.symm hU')]
                        rw [@consumeS_cons_ne 'V' c [] (C' ++ Y) none s.names s.allocs
                          (Ne.symm hV')]
                        rw [@consumeS_cons_ne 'W' c ['4'] (C' ++ Y) none s.names s.allocs
                          (Ne.symm hW')]
                        rw [@consumeS_cons_ne 'P' c ['6', 'A'] (C' ++ Y) none s.names s.allocs
                          (Ne.symm hP')]
                        rw [@consumeS_cons_ne 'A' c [] (C' ++ Y) none s.names s.allocs
                          (Ne.symm hA')]
                        rw [@consumeS_cons_ne 'P' c [] (C' ++ Y) none s.names s.allocs
                          (Ne.symm hP')]
                        rw [@consumeS_cons_ne 'Q' c [] (C' ++ Y) none s.names s.allocs
                          (Ne.symm hQ')]
                        rw [@consumeS_cons_ne 'Y' c [] (C' ++ Y) none s.names s.allocs
                          (Ne.symm hY')]
                        dsimp only
                        rw [hnP, haP]
                        have hr := hrepPm Y
                        simp only [List.cons_append] at hr
                        rw [hr]

theorem ext_var_mutual : ∀ f : Nat, ExtV f ∧ ExtC f ∧ ExtL f ∧ ExtP f := by
  intro f
  induction f with
  | zero =>
    refine ⟨?_, ?_, ?_, ?_⟩
    · intro ty s v s' h _ _; simp [readVarType] at h
    · intro p ty s v s' h _ _; simp [readClassFn] at h
    · intro ps s v s' h _ _; simp [classParamsLoop] at h
    · intro ps s v s' h _ _; simp [p6aLoop] at h
  | succ f ih =>
    obtain ⟨ihV, ihC, ihL, ihP⟩ := ih
    exact ⟨extV_step f ihV ihC ihP, extC_step f ihL, extL_step f ihV ihL,
      extP_step f ihV ihP⟩

/-! ## Claims -/

/-- Claim C1 (code bug): the claim says that on any input not beginning
with '?' the demangler succeeds, marks the type `Unknown` and returns the
input byte-for-byte.  In the source the corresponding branch of `parse`
lacks a `return`: control falls through into `read_name()`, whose loop
never terminates on the input "x" (no fuel suffices), so the run neither
succeeds nor returns the input. -/
theorem c1_missing_return_nontermination : ∀ f : Nat, demangle f ['x'] = none := by
  intro f
  have h := readNameGo_stuck 'x' (by decide) (by decide) f none [] 0 []
  simp [demangle, parse, parseTail, mkState, consumeS, List.isPrefixOf, h]

/-- Claim C2 (code bug): the claim says the parser always terminates with
work bounded by the input length.  On the input "?a" the `read_name` loop
(which does not check the error slot) calls `read_string`, which fails
without consuming anything, forever: no amount of fuel makes the parser
finish. -/
theorem c2_read_name_nontermination : ∀ f : Nat, demangle f ['?', 'a'] = none := by
  intro f
  have h := readNameGo_stuck 'a' (by decide) (by decide) f none [] 0 []
  simp [demangle, parse, parseTail, mkState, consumeS, List.isPrefixOf, h]

/-- Claim C3 (code bug): parsing `?f@@YAX` + 20 × `H` + `@Z` performs 21
calls to `alloc()` (final `type_index` = 21) and still succeeds, so the
21st node is handed out at index 20 — outside the 20-slot inline buffer.
`alloc()` is unconditionally `type_buffer + type_index++` and the spill
vector `type_buffer2` is never used, so no spill to dynamic storage ever
happens. -/
theorem c3_pool_overflow :
    (parse 100 (mkState ("?f@@YAX".data ++ List.replicate 20 'H' ++ "@Z".data))).map
        (fun r => (r.2.2.allocs, r.2.2.error)) = some (21, none) ∧ 20 < 21 := by
  exact ⟨by rfl, by decide⟩

/-- Claim C4 (counterexample): errors do *not* short-circuit subsequent
`read_*` calls.  On "?x@@YZ", `read_calling_conv` (reached in the state
with remaining input "Z" and the table holding "x") sets the first error
"unknown calling convention: Z", yet the whole run returns the different,
later error "unknown primitive type: Z" set by `read_prim_type`. -/
theorem c4_counterexample :
    demangle 50 ("?x@@YZ".data) = some (Except.error ("unknown primitive type: Z"))
    ∧ (readCallingConv ⟨['Z'], none, [['x']], 0⟩).2.error
        = some ("unknown calling convention: Z")
    ∧ "unknown calling convention: Z" ≠ "unknown primitive type: Z" := by
  exact ⟨by rfl, by rfl, by decide⟩

/-- Claim C5 (counterexample): the output for `?g@@YAPAHH@Z` is not
`int * g(int)`. -/
theorem c5_counterexample :
    demangle 100 ("?g@@YAPAHH@Z".data) ≠ some (Except.ok ("int * g(int)".data)) := by
  have e : demangle 100 ("?g@@YAPAHH@Z".data) = some (Except.ok ("int*g(int)".data)) := by rfl
  rw [e]
  intro h
  exact absurd (Except.ok.inj (Option.some.inj h)) (by decide)

/-- Claim C5 (amended): `?g@@YAPAHH@Z` demangles to exactly `int*g(int)`:
`write_pre` emits `*` with no surrounding space and `write_space` inserts a
space only after an alphabetic character, so none appears after `*`. -/
theorem c5_no_space_output :
    demangle 100 ("?g@@YAPAHH@Z".data) = some (Except.ok ("int*g(int)".data)) := by rfl

/-- Claim C7 (code bug): `read_number`'s own grammar comment demands one or
more hex digits before the terminating '@' (`<hex digit>+ @`), and the
claim says anything else fails with `BadNumber`; but on the input "@x" the
scan accepts an empty digit run, consuming the '@' and returning 0 with no
error. -/
theorem c7_empty_hex_accepted :
    readNumber ⟨['@', 'x'], none, [], 0⟩ = (0, ⟨['x'], none, [], 0⟩) := by rfl

/-- Claim C8 (counterexample): on the name stream `x@x@1@` the identifier
"x" is recorded twice (the table ends as ["x", "x"], holding only one
distinct identifier), and the back-reference `1` nevertheless resolves —
to the 2nd recorded *occurrence*, while the "(k+1)-th distinct identifier
seen so far" (here: a 2nd distinct identifier) does not exist. -/
theorem c8_counterexample :
    readNameGo 10 ⟨"x@x@1@".data, none, [], 0⟩ []
      = some ([['x'], ['x'], ['x']], ⟨[], none, [['x'], ['x']], 0⟩)
    ∧ List.dedup [['x'], ['x']] = [['x']] := by
  exact ⟨by rfl, by decide⟩

/-- Claim C9: `??0A@@QAE@XZ` demangles to exactly `A::A(void)`; the
innermost fragment `?0A` is rendered as the constructor `A::A`. -/
theorem c9_constructor_output :
    demangle 100 ("??0A@@QAE@XZ".data) = some (Except.ok ("A::A(void)".data)) := by rfl

/-- Claim C10: for every variable symbol — every input `core` whose body
tag is '3' and that parses cleanly to its end (no error, no leftover) —
appending arbitrary trailing bytes `junk` is ignored: `parse` returns
immediately after reading the variable's type with exactly `junk` left
unread and no error, and `demangle` succeeds with the very same output
(so the trailing bytes, e.g. the storage-class byte 'A' of "?x@@3HA",
never reach the output and never cause an error). -/
theorem c10_variable_trailing_bytes :
    ∀ (f : Nat) (core junk : List Char) (sym : List (List Char)) (ty : Ty) (s' : PState),
      bodyTag f core = some '3' →
      parse f (mkState core) = some (sym, ty, s') →
      s'.error = none → s'.input = [] →
      parse f (mkState (core ++ junk)) = some (sym, ty, ⟨junk, none, s'.names, s'.allocs⟩)
        ∧ demangle f (core ++ junk) = some (Except.ok (strFn f sym ty)) := by
  intro f core junk sym ty s' hb hp he' hi'
  unfold parse at hp
  unfold bodyTag at hb
  cases hq : consumeS ['?'] (mkState core) with
  | some s1 =>
    rw [hq] at hp hb
    dsimp only at hp hb
    unfold parseTail at hp
    cases hN : readNameGo f s1 [] with
    | none =>
      rw [hN] at hp
      exact Option.noConfusion hp
    | some r =>
      obtain ⟨sym, s2⟩ := r
      rw [hN] at hp hb
      dsimp only at hp hb
      cases hs2i : s2.input with
      | nil =>
        rw [hs2i] at hb
        simp at hb
      | cons c rest3 =>
        rw [hs2i] at hb
        simp at hb
        subst hb
        have h3 : consumeS ['3'] s2 = some { s2 with input := rest3 } :=
          consumeS_head_some hs2i
        rw [h3] at hp
        dsimp only at hp
        cases hV : readVarType f defaultTy { s2 with input := rest3 } with
        | none =>
          rw [hV] at hp
          exact Option.noConfusion hp
        | some r2 =>
          obtain ⟨ty9, s4⟩ := r2
          rw [hV] at hp
          dsimp only at hp
          cases hp
          obtain ⟨hd1, hd2, hd3, hd4⟩ := consumeS_some_decomp hq
          simp only [mkState] at hd3 hd4
          have hs1e : s1.error = none := hd2
          have hs2e : s2.error = none :=
            errNone_of_evol ((evol_var_mutual f).1 _ { s2 with input := rest3 } (ty, s') hV)
              he'
          obtain ⟨CN, hCNne, hinN, hqN, hrepN⟩ := ext_readNameGo f s1 [] sym s2 hN hs1e hs2e
          have hs2e' : ({ s2 with input := rest3 } : PState).error = none := hs2e
          obtain ⟨CV, hCVne, hvstV, hinV, hrepV⟩ :=
            (ext_var_mutual f).1 _ _ _ _ hV hs2e' he'
          dsimp only at hinV hrepV
          rw [hi'] at hinV
          simp only [List.append_nil] at hinV
          have hcore : core = '?' :: (CN ++ '3' :: CV) := by
            have h0 : core = ['?'] ++ s1.input := hd1
            rw [h0, hinN, hs2i, hinV]
            rfl
          have hrepall : parse f (mkState (core ++ junk))
              = some (sym, ty, ⟨junk, none, s'.names, s'.allocs⟩) := by
            rw [hcore]
            simp only [List.cons_append, List.append_assoc]
            unfold parse
            have hq' : consumeS ['?'] (mkState ('?' :: (CN ++ '3' :: (CV ++ junk))))
                = some ⟨CN ++ '3' :: (CV ++ junk), none, [], 0⟩ :=
              consumeS_replay ['?'] (CN ++ '3' :: (CV ++ junk)) [] 0
            rw [hq']
            dsimp only
            unfold parseTail
            have hrN := hrepN ('3' :: (CV ++ junk))
            rw [hd3, hd4] at hrN
            rw [hrN]
            dsimp only
            have h3' : consumeS ['3']
                (⟨'3' :: (CV ++ junk), none, s2.names, s2.allocs⟩ : PState)
                = some ⟨CV ++ junk, none, s2.names, s2.allocs⟩ :=
              consumeS_replay ['3'] (CV ++ junk) s2.names s2.allocs
            rw [h3']
            dsimp only
            have hrV := hrepV junk
            rw [hrV]
          refine ⟨hrepall, ?_⟩
          unfold demangle
          rw [hrepall]
  | none =>
    rw [hq] at hp hb
    dsimp only at hp hb
    unfold parseTail at hp
    cases hN : readNameGo f (mkState core) [] with
    | none =>
      rw [hN] at hp
      exact Option.noConfusion hp
    | some r =>
      obtain ⟨sym, s2⟩ := r
      rw [hN] at hp hb
      dsimp only at hp hb
      cases hs2i : s2.input with
      | nil =>
        rw [hs2i] at hb
        simp at hb
      | cons c rest3 =>
        rw [hs2i] at hb
        simp at hb
        subst hb
        have h3 : consumeS ['3'] s2 = some { s2 with input := rest3 } :=
          consumeS_head_some hs2i
        rw [h3] at hp
        dsimp only at hp
        cases hV : readVarType f defaultTy { s2 with input := rest3 } with
        | none =>
          rw [hV] at hp
          exact Option.noConfusion hp
        | some r2 =>
          obtain ⟨ty9, s4⟩ := r2
          rw [hV] at hp
          dsimp only at hp
          cases hp
          have hs1e : (mkState core).error = none := rfl
          have hs2e : s2.error = none :=
            errNone_of_evol ((evol_var_mutual f).1 _ { s2 with input := rest3 } (ty, s') hV)
              he'
          obtain ⟨CN, hCNne, hinN, hqN, hrepN⟩ :=
            ext_readNameGo f (mkState core) [] sym s2 hN hs1e hs2e
          have hs2e' : ({ s2 with input := rest3 } : PState).error = none := hs2e
          obtain ⟨CV, hCVne, hvstV, hinV, hrepV⟩ :=
            (ext_var_mutual f).1 _ _ _ _ hV hs2e' he'
          dsimp only at hinV hrepV
          rw [hi'] at hinV
          simp only [List.append_nil] at hinV
          have hcore : core = CN ++ '3' :: CV := by
            have h0 : (mkState core).input = CN ++ s2.input := hinN
            rw [hs2i, hinV] at h0
            exact h0
          cases hCN : CN with
          | nil => exact absurd hCN hCNne
          | cons c0 CN' =>
            have hcs : (mkState core).input = c0 :: (CN' ++ '3' :: CV) := by
              show core = c0 :: (CN' ++ '3' :: CV)
              rw [hcore, hCN]
              rfl
            have hq0 : ('?' : Char) ≠ c0 := consumeS_single_none_head hq hcs
            have hrepall : parse f (mkState (core ++ junk))
                = some (sym, ty, ⟨junk, none, s'.names, s'.allocs⟩) := by
              rw [hcore, hCN]
              simp only [List.cons_append, List.append_assoc]
              unfold parse
              have hq' : consumeS ['?']
                  (mkState (c0 :: (CN' ++ '3' :: (CV ++ junk)))) = none :=
                consumeS_cons_ne [] (CN' ++ '3' :: (CV ++ junk)) none [] 0 hq0
              rw [hq']
              dsimp only
              unfold parseTail
              have hrN := hrepN ('3' :: (CV ++ junk))
              simp only [mkState] at hrN
              have hrN' : readNameGo f
                  (mkState (c0 :: (CN' ++ '3' :: (CV ++ junk)))) []
                  = some (sym, ⟨'3' :: (CV ++ junk), none, s2.names, s2.allocs⟩) := by
                show readNameGo f
                    (⟨c0 :: (CN' ++ '3' :: (CV ++ junk)), none, [], 0⟩ : PState) []
                    = some (sym, ⟨'3' :: (CV ++ junk), none, s2.names, s2.allocs⟩)
                have hl : (c0 :: CN') ++ ('3' :: (CV ++ junk))
                    = c0 :: (CN' ++ '3' :: (CV ++ junk)) := by simp
                rw [← hl, ← hCN]
                exact hrN
              rw [hrN']
              dsimp only
              have h3' : consumeS ['3']
                  (⟨'3' :: (CV ++ junk), none, s2.names, s2.allocs⟩ : PState)
                  = some ⟨CV ++ junk, none, s2.names, s2.allocs⟩ :=
                consumeS_replay ['3'] (CV ++ junk) s2.names s2.allocs
              rw [h3']
              dsimp only
              have hrV := hrepV junk
              rw [hrV]
            refine ⟨hrepall, ?_⟩
            unfold demangle
            rw [hrepall]

/-- Witness for C10: the concrete variable symbol "?x@@3H" (body tag '3',
clean parse) with the trailing storage-class byte "A" appended demangles to
exactly the same output. -/
theorem c10_variable_trailing_bytes_witness :
    bodyTag 30 ("?x@@3H".data) = some '3'
      ∧ demangle 30 ("?x@@3H".data ++ "A".data)
        = some (Except.ok (strFn 30 [['x']]
            (Ty.node PrimTy.Int 0 CallingConv.Cdecl 0 0 [] none []))) :=
  ⟨rfl,
   (c10_variable_trailing_bytes 30 ("?x@@3H".data) ("A".data) [['x']]
      (Ty.node PrimTy.Int 0 CallingConv.Cdecl 0 0 [] none [])
      ⟨[], none, [['x']], 0⟩ rfl rfl rfl rfl).2⟩

/-- Claim C4 (amended): the error slot, once set, is never cleared — every
completed `parse` run started in an error state ends in an error state (and
the top-level call returns whatever error is in the slot at the end, which
a later `read_*` call may have overwritten). -/
theorem c4_error_monotone :
    ∀ (f : Nat) (s : PState) (r : List (List Char) × Ty × PState),
      parse f s = some r → s.error.isSome = true → r.2.2.error.isSome = true :=
  fun f s r h he => (evol_parse f s r h).1 he

/-- Witness for `c4_error_monotone` at a concrete run. -/
theorem c4_error_monotone_witness :
    (⟨['A'], some ("e"), [['x']], 0⟩ : PState).error.isSome = true :=
  c4_error_monotone 50 ⟨"?x@@3HA".data, some ("e"), [], 0⟩
    ([['x']], Ty.node .Int 0 .Cdecl 0 0 [] none [], ⟨['A'], some ("e"), [['x']], 0⟩)
    (by rfl) (by rfl)

/-- Claim C6: `read_number` maps a single decimal digit d to the value d+1
(so "0" yields 1 and "9" yields 10), maps hex digits 'A'..'P' terminated by
'@' to their base-16 value (within `int32_t` range; so "BA@" yields 16),
and a leading '?' negates ("?BA@" yields -16). -/
theorem c6_read_number_encoding :
    (∀ (c : Char) (rest : List Char) (s : PState), s.input = c :: rest →
        48 ≤ c.toNat → c.toNat ≤ 57 →
        readNumber s = ((c.toNat : Int) - 48 + 1, { s with input := rest }))
    ∧ (∀ (ds rest : List Char) (s : PState), s.input = ds ++ '@' :: rest → ds ≠ [] →
        (∀ c ∈ ds, 65 ≤ c.toNat ∧ c.toNat ≤ 80) → hexVal ds < 2147483648 →
        readNumber s = (hexVal ds, { s with input := rest }))
    ∧ readNumber (mkState ("BA@".data)) = (16, mkState [])
    ∧ readNumber (mkState ("?BA@".data)) = (-16, mkState []) := by
  refine ⟨?_, ?_, by rfl, by rfl⟩
  · intro c rest s hin h1 h2
    have hq : ('?' : Char) ≠ c := by
      intro h
      rw [← h] at h2
      exact absurd h2 (by decide)
    have hcons : consumeS ['?'] s = none := by
      simp [consumeS, hin, List.isPrefixOf, hq]
    simp only [readNumber, hcons]
    rw [hin]
    simp [condNeg, h1, h2]
  · intro ds rest s hin hne hd hb
    obtain ⟨d0, ds', rfl⟩ : ∃ d0 ds', ds = d0 :: ds' := by
      cases ds with
      | nil => exact absurd rfl hne
      | cons a b => exact ⟨a, b, rfl⟩
    have h65 : 65 ≤ d0.toNat := (hd d0 (by simp)).1
    have hq : ('?' : Char) ≠ d0 := by
      intro h
      rw [← h] at h65
      exact absurd h65 (by decide)
    have hcons : consumeS ['?'] s = none := by
      simp [consumeS, hin, List.isPrefixOf, hq]
    have hdig : ¬(48 ≤ d0.toNat ∧ d0.toNat ≤ 57) := by
      intro hx
      omega
    have hloop := readNumLoop_hex (d0 :: ds') rest 0 hd (by omega) hb
    simp only [readNumber, hcons]
    rw [hin]
    simp only [List.cons_append, if_neg hdig, numTail]
    rw [hin, hloop]
    simp [condNeg, hexVal]

/-- Witness for `c6_read_number_encoding` at concrete inputs. -/
theorem c6_read_number_encoding_witness :
    readNumber (mkState ['3'])
      = ((('3'.toNat : Int) - 48 + 1), { mkState ['3'] with input := ([] : List Char) })
    ∧ readNumber (mkState ['P', '@'])
      = (hexVal ['P'], { mkState ['P', '@'] with input := ([] : List Char) }) := by
  exact ⟨c6_read_number_encoding.1 '3' [] (mkState ['3']) rfl (by decide) (by decide),
    c6_read_number_encoding.2.1 ['P'] [] (mkState ['P', '@']) rfl (by decide)
      (by decide) (by decide)⟩

/-- Claim C8 (amended): the back-reference table never exceeds 10 entries
throughout a parse (1); `read_name` only appends to it and respects the cap
(2); an identifier occurrence is recorded iff fewer than 10 entries were
previously recorded — duplicates included (3); and the digit back-reference
k cites entry k of the table, i.e. the (k+1)-th *recorded occurrence*, not
the (k+1)-th distinct identifier (4). -/
theorem c8_backref_table :
    (∀ (f : Nat) (s : PState) (r : List (List Char) × Ty × PState),
        parse f s = some r → s.names.length ≤ 10 → r.2.2.names.length ≤ 10)
    ∧ (∀ (f : Nat) (s : PState) (acc v : List (List Char)) (s' : PState),
        readNameGo f s acc = some (v, s') →
          (∃ t, s'.names = s.names ++ t) ∧ s'.names.length ≤ max s.names.length 10)
    ∧ (∀ (f : Nat) (c : Char) (cs rest : List Char) (t : List (List Char)) (a : Nat)
        (acc : List (List Char)), ¬(48 ≤ c.toNat ∧ c.toNat ≤ 57) → '@' ∉ (c :: cs) →
        readNameGo (f + 2) ⟨(c :: cs) ++ '@' :: '@' :: rest, none, t, a⟩ acc =
          some (acc ++ [c :: cs],
            ⟨rest, none, if t.length < 10 then t ++ [c :: cs] else t, a⟩))
    ∧ (∀ (f : Nat) (d : Char) (rest : List Char) (t : List (List Char)) (a : Nat)
        (acc : List (List Char)) (h1 : 48 ≤ d.toNat) (h2 : d.toNat ≤ 57)
        (h : d.toNat - 48 < t.length),
        readNameGo (f + 2) ⟨d :: '@' :: rest, none, t, a⟩ acc =
          some (acc ++ [t.get ⟨d.toNat - 48, h⟩], ⟨rest, none, t, a⟩)) := by
  refine ⟨?_, ?_, ?_, ?_⟩
  · intro f s r h hle
    have h3 := (evol_parse f s r h).2.2
    omega
  · intro f s acc v s' h
    have e := evol_readNameGo f s acc v s' h
    exact ⟨e.2.1, e.2.2⟩
  · intro f c cs rest t a acc hdig hnm
    have hc : ¬(c = '@') := fun h => hnm (by simp [h])
    have hrs : readStringGo (c :: (cs ++ '@' :: '@' :: rest)) [] = some (c :: cs, '@' :: rest) := by
      have h0 := readStringGo_no_at (c :: cs) ('@' :: rest) [] hnm
      simpa using h0
    by_cases ht : t.length < 10 <;>
      simp [readNameGo, readString, recordName, hrs, hc, hdig, ht]
  · intro f d rest t a acc h1 h2 h
    have hd : ¬(d = '@') := by
      intro he
      subst he
      revert h2
      decide
    simp [readNameGo, hd, h1, h2, h]

/-- Witness for `c8_backref_table` at concrete runs. -/
theorem c8_backref_table_witness :
    ((⟨['A'], none, [['z']], 0⟩ : PState).names.length ≤ 10)
    ∧ readNameGo 2 ⟨['w', '@', '@'], none, [], 0⟩ []
        = some ([] ++ [['w']],
            ⟨[], none, if ([] : List (List Char)).length < 10 then [] ++ [['w']] else [], 0⟩)
    ∧ readNameGo 2 ⟨['0', '@'], none, [['q']], 0⟩ []
        = some ([] ++ [([['q']] : List (List Char)).get ⟨'0'.toNat - 48, by decide⟩],
            ⟨[], none, [['q']], 0⟩) := by
  refine ⟨?_, ?_, ?_⟩
  · exact c8_backref_table.1 20 (mkState ("?z@@3HA".data))
      ([['z']], Ty.node .Int 0 .Cdecl 0 0 [] none [], ⟨['A'], none, [['z']], 0⟩)
      (by rfl) (by decide)
  · exact c8_backref_table.2.2.1 0 'w' [] [] [] 0 [] (by decide) (by decide)
  · exact c8_backref_table.2.2.2 0 '0' [] [['q']] 0 [] (by decide) (by decide) (by decide)
